import Mathlib

/-!
Verification of the Document Parse Result Normalizer & Status Model of the
contract/invoice management UI.

The embedded code comes from:
  * `ParsedDataDialog` (the detail dialog): `getParseStatusBadge`,
    `formatDate`, `formatMoney`, `formatText`, `getSummaryRows`,
    `getParseMessage`, `getRawText`, `getJsonText`;
  * `contract-columns.tsx` / `invoice-columns.tsx`: the two row-level
    `getParseStatusBadge` adapters gated on `file_path`.

Untrusted payloads are modelled as JSON values.  JavaScript runtime
primitives used by the code (`JSON.stringify`, `JSON.parse`,
`Number.prototype.toLocaleString`, `new Date(...)` /
`Date.prototype.toLocaleDateString`, `Array.prototype.join`) are embedded
by executable Lean functions following their ECMAScript / ECMA-402
semantics on the relevant domain; the doc comment of each such function
states the modelled fragment.
-/

set_option maxRecDepth 8000

/-- A JSON value: `null`, booleans, numbers, strings, arrays, objects.
JavaScript numbers are IEEE doubles; every finite double is an exact
rational with a finite decimal expansion, so numbers are modelled as
rationals.  Object members are kept in insertion order, as JavaScript
objects do. -/
inductive Json where
  | null
  | bool (b : Bool)
  | num (q : ℚ)
  | str (s : String)
  | arr (elems : List Json)
  | obj (members : List (String × Json))

/-- The `parsedData` prop of the dialog has TypeScript type
`Record<string, unknown> | null | undefined`: either an object (a list of
string-keyed members) or absent (`null`/`undefined`, both falsy). -/
abbrev ParsedData := Option (List (String × Json))

/-- The two document kinds (`type ParsedKind = "contract" | "invoice"`). -/
inductive ParsedKind where
  | contract
  | invoice
deriving DecidableEq

/-- The five-way parse outcome of the spec (§3 `ParseOutcome`); `part`
stands for the spec's `Partial`. -/
inductive ParseOutcome where
  | unparsed
  | full
  | part
  | failed
  | unsupported
deriving DecidableEq

/-- The `Badge` `variant` values that occur in the embedded sources. -/
inductive BadgeVariant where
  | secondary
  | destructive
  | outline
deriving DecidableEq

/-- A `{ label, variant }` badge value as returned by the status badge
functions. -/
structure StatusBadge where
  label : String
  variant : BadgeVariant
deriving DecidableEq

/-! ## Decimal rendering of JavaScript numbers -/

/-- The decimal digit character for `n % 10`. -/
def digitChar (n : ℕ) : Char :=
  match n with
  | 0 => '0'
  | 1 => '1'
  | 2 => '2'
  | 3 => '3'
  | 4 => '4'
  | 5 => '5'
  | 6 => '6'
  | 7 => '7'
  | 8 => '8'
  | _ => '9'

/-- Decimal digits with explicit fuel (structural recursion, so that
concrete instances reduce in the kernel). -/
def natToDigitsAux : ℕ → ℕ → List Char
  | 0, _ => []
  | fuel + 1, n =>
    if n < 10 then [digitChar n]
    else natToDigitsAux fuel (n / 10) ++ [digitChar (n % 10)]

/-- Decimal digits of a natural number, most significant first. -/
def natToDigits (n : ℕ) : List Char :=
  natToDigitsAux (n + 1) n

/-- Value of a list of decimal digit characters. -/
def digitsToNat (ds : List Char) : ℕ :=
  ds.foldl (fun a c => 10 * a + (c.toNat - 48)) 0

/-- `n % 10` rendered left-padded with zeros to `e` digits. -/
def padDigits (e : ℕ) (n : ℕ) : List Char :=
  List.replicate (e - (natToDigits n).length) '0' ++ natToDigits n

/-- Factor multiplicity with explicit fuel (structural recursion). -/
def factorMultAux (p : ℕ) : ℕ → ℕ → ℕ
  | 0, _ => 0
  | fuel + 1, n => if 1 < p ∧ 0 < n ∧ p ∣ n then factorMultAux p fuel (n / p) + 1 else 0

/-- Multiplicity of the factor `p` in `n` (0 when `p ≤ 1` or `n = 0`). -/
def factorMult (p n : ℕ) : ℕ :=
  factorMultAux p (n + 1) n

/-- Factor stripping with explicit fuel (structural recursion). -/
def stripFactorAux (p : ℕ) : ℕ → ℕ → ℕ
  | 0, n => n
  | fuel + 1, n => if 1 < p ∧ 0 < n ∧ p ∣ n then stripFactorAux p fuel (n / p) else n

/-- `n` with every factor `p` removed. -/
def stripFactor (p n : ℕ) : ℕ :=
  stripFactorAux p (n + 1) n

/-- A rational has a finite decimal expansion iff its reduced denominator
has no prime factors besides 2 and 5.  Every finite IEEE double does. -/
def FiniteDecimal (q : ℚ) : Prop :=
  stripFactor 5 (stripFactor 2 q.den) = 1

instance (q : ℚ) : Decidable (FiniteDecimal q) := by
  unfold FiniteDecimal; infer_instance

/-- The least number of fraction digits needed to write `q` exactly in
decimal (correct when `FiniteDecimal q`). -/
def decExp (q : ℚ) : ℕ :=
  max (factorMult 2 q.den) (factorMult 5 (stripFactor 2 q.den))

/-- `q * 10 ^ decExp q` computed in the integers; equal to the scaled
value whenever `FiniteDecimal q`. -/
def scaledNum (q : ℚ) : ℕ :=
  (q.num * (((10 ^ decExp q : ℕ) : ℤ) / (q.den : ℤ))).natAbs

/-- Character form of JavaScript `String(x)` for a finite number `x`:
optional minus sign, integer digits, and, when fraction digits are
needed, a dot and the zero-padded fraction. -/
def numChars (q : ℚ) : List Char :=
  let e := decExp q
  let n := scaledNum q
  (if q.num < 0 then ['-'] else []) ++
    (if e = 0 then natToDigits n
     else natToDigits (n / 10 ^ e) ++ '.' :: padDigits e (n % 10 ^ e))

/-- Embeds JavaScript `String(x)` for a finite number `x`: the shortest
exact decimal form, e.g. `"1234.5"`, `"-0.25"`, `"42"`.  (JavaScript
switches to exponent notation only beyond `1e21`/`1e-7`, outside the
modelled fragment.) -/
def numToString (q : ℚ) : String :=
  ⟨numChars q⟩

/-! ## JavaScript string conversion (`String(x)`, `Array.prototype.join`) -/

/-- Hexadecimal digit character (lower case, as `JSON.stringify` emits). -/
def digitChar16 (n : ℕ) : Char :=
  if n < 10 then digitChar n
  else match n with
    | 10 => 'a'
    | 11 => 'b'
    | 12 => 'c'
    | 13 => 'd'
    | 14 => 'e'
    | _ => 'f'

/-- JSON string escaping as performed by `JSON.stringify`: `"` and `\`
get a backslash, the control characters named in the table get their
short escapes, all other control characters below `U+0020` become
`\u00XX`, and everything else is copied verbatim. -/
def escapeChar (c : Char) : List Char :=
  if c = '"' then ['\\', '"']
  else if c = '\\' then ['\\', '\\']
  else if c = Char.ofNat 8 then ['\\', 'b']
  else if c = Char.ofNat 9 then ['\\', 't']
  else if c = Char.ofNat 10 then ['\\', 'n']
  else if c = Char.ofNat 12 then ['\\', 'f']
  else if c = Char.ofNat 13 then ['\\', 'r']
  else if c.toNat < 32 then
    ['\\', 'u', '0', '0', digitChar16 (c.toNat / 16), digitChar16 (c.toNat % 16)]
  else [c]

/-- A JSON string literal: quote, escaped characters, quote. -/
def quoteString (s : String) : List Char :=
  '"' :: (s.data.flatMap escapeChar ++ ['"'])

mutual

/-- Embeds `JSON.stringify(x)` with no space argument: compact form,
members separated by `,`, colon with no space. -/
def stringifyCompact : Json → List Char
  | .null => "null".data
  | .bool b => cond b "true".data "false".data
  | .num q => numChars q
  | .str s => quoteString s
  | .arr xs => '[' :: (stringifyCompactItems xs ++ [']'])
  | .obj ms => '\x7b' :: (stringifyCompactMembers ms ++ ['\x7d'])

/-- Array elements of the compact form, `,`-separated. -/
def stringifyCompactItems : List Json → List Char
  | [] => []
  | [v] => stringifyCompact v
  | v :: w :: rest => stringifyCompact v ++ ',' :: stringifyCompactItems (w :: rest)

/-- Object members of the compact form, `,`-separated. -/
def stringifyCompactMembers : List (String × Json) → List Char
  | [] => []
  | [(k, v)] => quoteString k ++ ':' :: stringifyCompact v
  | (k, v) :: m :: rest =>
    quoteString k ++ ':' :: stringifyCompact v ++ ',' :: stringifyCompactMembers (m :: rest)

end

/-- The indentation for nesting level `lvl` of `JSON.stringify(x, null, 2)`:
`2 * lvl` spaces. -/
def indentChars (lvl : ℕ) : List Char :=
  List.replicate (2 * lvl) ' '

mutual

/-- Embeds `JSON.stringify(x, null, 2)` (ECMA-262 `SerializeJSONProperty`
with `gap = "  "`): arrays and objects with at least one entry break
into lines, entries indented one level deeper, member colon followed by
one space; empty arrays and objects stay `[]` and `{}` (written here as
brackets). -/
def stringifyPretty (lvl : ℕ) : Json → List Char
  | .null => "null".data
  | .bool b => cond b "true".data "false".data
  | .num q => numChars q
  | .str s => quoteString s
  | .arr [] => ['[', ']']
  | .arr (x :: xs) =>
    '[' :: '\n' :: (indentChars (lvl + 1) ++ stringifyPrettyItems lvl (x :: xs) ++
      '\n' :: (indentChars lvl ++ [']']))
  | .obj [] => ['\x7b', '\x7d']
  | .obj (m :: ms) =>
    '\x7b' :: '\n' :: (indentChars (lvl + 1) ++ stringifyPrettyMembers lvl (m :: ms) ++
      '\n' :: (indentChars lvl ++ ['\x7d']))

/-- Array elements of the pretty form, separated by `,`, newline and the
inner indentation. -/
def stringifyPrettyItems (lvl : ℕ) : List Json → List Char
  | [] => []
  | [v] => stringifyPretty (lvl + 1) v
  | v :: w :: rest =>
    stringifyPretty (lvl + 1) v ++ ',' :: '\n' ::
      (indentChars (lvl + 1) ++ stringifyPrettyItems lvl (w :: rest))

/-- Object members of the pretty form. -/
def stringifyPrettyMembers (lvl : ℕ) : List (String × Json) → List Char
  | [] => []
  | [(k, v)] => quoteString k ++ ':' :: ' ' :: stringifyPretty (lvl + 1) v
  | (k, v) :: m :: rest =>
    quoteString k ++ ':' :: ' ' :: stringifyPretty (lvl + 1) v ++ ',' :: '\n' ::
      (indentChars (lvl + 1) ++ stringifyPrettyMembers lvl (m :: rest))

end

mutual

/-- Embeds JavaScript `String(x)` on JSON values: strings verbatim,
numbers in decimal, `"null"`, `"true"`/`"false"`, arrays via
`Array.prototype.toString` (= `join(",")`), plain objects as
`"[object Object]"`. -/
def jsToString : Json → String
  | .null => "null"
  | .bool b => cond b "true" "false"
  | .num q => numToString q
  | .str s => s
  | .arr xs => jsJoinList "," xs
  | .obj _ => "[object Object]"

/-- Embeds `Array.prototype.join(sep)`: elements converted with
`String(x)`, except `null` (and `undefined`), which become empty. -/
def jsJoinList (sep : String) : List Json → String
  | [] => ""
  | [v] => jsJoinOne v
  | v :: w :: rest => jsJoinOne v ++ sep ++ jsJoinList sep (w :: rest)

/-- One element of a `join`: `null` contributes the empty string. -/
def jsJoinOne : Json → String
  | .null => ""
  | .bool b => cond b "true" "false"
  | .num q => numToString q
  | .str s => s
  | .arr xs => jsJoinList "," xs
  | .obj _ => "[object Object]"

end

/-! ## The field formatters of `ParsedDataDialog` -/

/-- Leap year rule of the proleptic Gregorian calendar. -/
def isLeapYear (y : ℕ) : Bool :=
  (y % 4 == 0 && y % 100 != 0) || y % 400 == 0

/-- Days in month `m` of year `y`. -/
def daysInMonth (y m : ℕ) : ℕ :=
  if m = 2 then (if isLeapYear y then 29 else 28)
  else if m = 4 ∨ m = 6 ∨ m = 9 ∨ m = 11 then 30
  else 31

/-- Numeric value of a decimal digit character. -/
def digitVal (c : Char) : ℕ :=
  c.toNat - 48

/-- Embeds the date-only forms of the ECMAScript Date Time String Format
accepted by `new Date(string)`: `YYYY`, `YYYY-MM`, `YYYY-MM-DD`, with
month and day validated against the calendar.  Strings outside this
fragment (time-of-day suffixes, RFC 2822 dates, other
implementation-specific forms) are treated as unparseable here. -/
def parseISODate (s : String) : Option (ℕ × ℕ × ℕ) :=
  match s.data with
  | [a, b, c, d] =>
    if a.isDigit && b.isDigit && c.isDigit && d.isDigit then
      some (digitVal a * 1000 + digitVal b * 100 + digitVal c * 10 + digitVal d, 1, 1)
    else none
  | [a, b, c, d, '-', e, f] =>
    if a.isDigit && b.isDigit && c.isDigit && d.isDigit && e.isDigit && f.isDigit then
      let y := digitVal a * 1000 + digitVal b * 100 + digitVal c * 10 + digitVal d
      let mo := digitVal e * 10 + digitVal f
      if 1 ≤ mo ∧ mo ≤ 12 then some (y, mo, 1) else none
    else none
  | [a, b, c, d, '-', e, f, '-', g, h] =>
    if a.isDigit && b.isDigit && c.isDigit && d.isDigit && e.isDigit && f.isDigit &&
        g.isDigit && h.isDigit then
      let y := digitVal a * 1000 + digitVal b * 100 + digitVal c * 10 + digitVal d
      let mo := digitVal e * 10 + digitVal f
      let dy := digitVal g * 10 + digitVal h
      if 1 ≤ mo ∧ mo ≤ 12 ∧ 1 ≤ dy ∧ dy ≤ daysInMonth y mo then some (y, mo, dy)
      else none
    else none
  | _ => none

/-- Embeds `Date.prototype.toLocaleDateString("zh-CN")`: `y/m/d` with no
zero padding and no time component (timezone fixed to the host zone the
date was parsed in). -/
def toLocaleDateStringZhCN (y m d : ℕ) : String :=
  s!"{y}/{m}/{d}"

/-- `formatDate` of `ParsedDataDialog`: non-strings and the empty string
give `"-"`; a string that `new Date` cannot parse is returned unchanged;
a parsed date is rendered at day granularity for `zh-CN`. -/
def formatDate (value : Option Json) : String :=
  match value with
  | some (Json.str s) =>
    if s = "" then "-"
    else
      match parseISODate s with
      | none => s
      | some (y, mo, dy) => toLocaleDateStringZhCN y mo dy
  | _ => "-"

/-- Digit grouping on a reversed digit list: a `,` after every third
digit. -/
def groupDigitsRev : List Char → List Char
  | a :: b :: c :: d :: rest => a :: b :: c :: ',' :: groupDigitsRev (d :: rest)
  | l => l

/-- The integer part with thousands separators (`zh-CN` grouping). -/
def groupedNat (n : ℕ) : String :=
  ⟨(groupDigitsRev (natToDigits n).reverse).reverse⟩

/-- Embeds `Number.prototype.toLocaleString("zh-CN",
{ minimumFractionDigits: 2 })` per ECMA-402: `maximumFractionDigits`
defaults to `max(minimumFractionDigits, 3) = 3`, the value is rounded
half away from zero at the third fraction digit, trailing zeros are
trimmed but never below two fraction digits, and the integer part is
grouped in threes with `,`. -/
def toLocaleStringZhCN2 (q : ℚ) : String :=
  let n : ℕ := (⌊|q| * 1000 + 1 / 2⌋).toNat
  let ip := n / 1000
  let fp := n % 1000
  let fracStr : String := if fp % 10 = 0 then ⟨padDigits 2 (fp / 10)⟩ else ⟨padDigits 3 fp⟩
  (if q < 0 then "-" else "") ++ groupedNat ip ++ "." ++ fracStr

/-- `formatMoney` of `ParsedDataDialog`: non-numbers give `"-"`, numbers
are rendered with the `¥` prefix by `toLocaleString("zh-CN",
{ minimumFractionDigits: 2 })`. -/
def formatMoney (value : Option Json) : String :=
  match value with
  | some (Json.num q) => "¥" ++ toLocaleStringZhCN2 q
  | _ => "-"

/-- `formatText` of `ParsedDataDialog`: `null`, `undefined` and the empty
string give `"-"`; arrays are joined with `", "`; other objects are
`JSON.stringify`ed compactly; everything else is `String(value)`. -/
def formatText (value : Option Json) : String :=
  match value with
  | none => "-"
  | some Json.null => "-"
  | some (Json.str s) => if s = "" then "-" else s
  | some (Json.arr xs) => jsJoinList ", " xs
  | some (Json.obj ms) => ⟨stringifyCompact (Json.obj ms)⟩
  | some (Json.bool b) => cond b "true" "false"
  | some (Json.num q) => numToString q

/-! ## Summary rows, message, raw text, raw JSON, aggregate view -/

/-- One labeled, pre-formatted summary field. -/
structure SummaryRow where
  label : String
  value : String
deriving DecidableEq

/-- The `stampPages` constant computed inside `getSummaryRows` for
contracts: an array field keeps its numeric elements, each shifted by
one and joined with `", "`; a non-array gives `"-"`; the final
`stampPages || "-"` replaces an empty join by `"-"`. -/
def stampPagesValue (m : List (String × Json)) : String :=
  let s : String :=
    match m.lookup "stamp_pages" with
    | some (Json.arr vs) =>
      String.intercalate ", "
        ((vs.filterMap (fun v => match v with | Json.num q => some q | _ => none)).map
          (fun q => numToString (q + 1)))
    | _ => "-"
  if s = "" then "-" else s

/-- `getSummaryRows` of `ParsedDataDialog`: no payload gives no rows; a
contract payload projects its eight fields, an invoice payload its
seven, in the fixed order, each through the stated formatter. -/
def getSummaryRows (kind : ParsedKind) (parsedData : ParsedData) : List SummaryRow :=
  match parsedData with
  | none => []
  | some m =>
    match kind with
    | .contract =>
      [⟨"甲方", formatText (m.lookup "party_a")⟩,
       ⟨"乙方", formatText (m.lookup "party_b")⟩,
       ⟨"合同编号", formatText (m.lookup "contract_number")⟩,
       ⟨"签约日期", formatDate (m.lookup "sign_date")⟩,
       ⟨"生效日期", formatDate (m.lookup "effective_date")⟩,
       ⟨"到期日期", formatDate (m.lookup "expiry_date")⟩,
       ⟨"合同金额", formatMoney (m.lookup "amount")⟩,
       ⟨"盖章页", stampPagesValue m⟩]
    | .invoice =>
      [⟨"发票号码", formatText (m.lookup "invoice_number")⟩,
       ⟨"发票代码", formatText (m.lookup "invoice_code")⟩,
       ⟨"开票日期", formatDate (m.lookup "invoice_date")⟩,
       ⟨"销售方", formatText (m.lookup "seller")⟩,
       ⟨"购买方", formatText (m.lookup "buyer")⟩,
       ⟨"发票金额", formatMoney (m.lookup "amount")⟩,
       ⟨"税额", formatMoney (m.lookup "tax_amount")⟩]

/-- `getParseMessage` of `ParsedDataDialog`: the string `parse_message`
field, or the fixed placeholder. -/
def getParseMessage (parsedData : ParsedData) : String :=
  match parsedData with
  | none => "暂无解析信息"
  | some m =>
    match m.lookup "parse_message" with
    | some (Json.str s) => s
    | _ => "暂无解析信息"

/-- `getRawText` of `ParsedDataDialog`: the string `raw_text` field, or
the empty string. -/
def getRawText (parsedData : ParsedData) : String :=
  match parsedData with
  | none => ""
  | some m =>
    match m.lookup "raw_text" with
    | some (Json.str s) => s
    | _ => ""

/-- `getJsonText` of `ParsedDataDialog`: `JSON.stringify(parsedData,
null, 2)` when the payload is present, else the empty string. -/
def getJsonText (parsedData : ParsedData) : String :=
  match parsedData with
  | none => ""
  | some m => ⟨stringifyPretty 0 (Json.obj m)⟩

/-! ## A model of `JSON.parse`

A standard recursive-descent JSON reader over character lists, used to
state the raw-JSON round-trip property.  It is lenient where strictness
cannot matter for output of `JSON.stringify` (leading zeros in numbers
are accepted, `\uXXXX` escapes are mapped through `Char.ofNat` without
combining surrogate pairs). -/

/-- The JSON whitespace characters. -/
def isWsChar (c : Char) : Bool :=
  c = ' ' || c = '\n' || c = '\t' || c = '\r'

/-- Drop leading JSON whitespace. -/
def skipWs (cs : List Char) : List Char :=
  cs.dropWhile isWsChar

/-- Value of one hexadecimal digit character. -/
def hexVal (c : Char) : Option ℕ :=
  if c.isDigit then some (c.toNat - 48)
  else if 'a' ≤ c ∧ c ≤ 'f' then some (c.toNat - 87)
  else if 'A' ≤ c ∧ c ≤ 'F' then some (c.toNat - 55)
  else none

/-- Read a JSON string body up to the closing quote, resolving escapes. -/
def parseStringBody : List Char → Option (List Char × List Char)
  | [] => none
  | '"' :: rest => some ([], rest)
  | '\\' :: 'u' :: a :: b :: c :: d :: rest => do
    let va ← hexVal a
    let vb ← hexVal b
    let vc ← hexVal c
    let vd ← hexVal d
    let (l, r) ← parseStringBody rest
    some (Char.ofNat (va * 4096 + vb * 256 + vc * 16 + vd) :: l, r)
  | '\\' :: e :: rest => do
    let c ← match e with
      | '"' => some '"'
      | '\\' => some '\\'
      | '/' => some '/'
      | 'b' => some (Char.ofNat 8)
      | 'f' => some (Char.ofNat 12)
      | 'n' => some (Char.ofNat 10)
      | 'r' => some (Char.ofNat 13)
      | 't' => some (Char.ofNat 9)
      | _ => none
    let (l, r) ← parseStringBody rest
    some (c :: l, r)
  | c :: rest =>
    if c.toNat < 32 then none
    else do
      let (l, r) ← parseStringBody rest
      some (c :: l, r)

/-- Read the fraction part of a number, if present. -/
def parseFrac (cs : List Char) : Option (ℚ × List Char) :=
  match cs with
  | '.' :: rest =>
    let fs := rest.takeWhile Char.isDigit
    if fs = [] then none
    else some ((digitsToNat fs : ℚ) / (10 : ℚ) ^ fs.length, rest.dropWhile Char.isDigit)
  | _ => some (0, cs)

/-- Read the digits of an exponent part, after `e`/`E`. -/
def parseExpTail (cs : List Char) : Option (ℚ × List Char) :=
  let (sgn, cs1) : ℤ × List Char :=
    match cs with
    | '+' :: rest => (1, rest)
    | '-' :: rest => (-1, rest)
    | _ => (1, cs)
  let ds := cs1.takeWhile Char.isDigit
  if ds = [] then none
  else some ((10 : ℚ) ^ (sgn * (digitsToNat ds : ℤ)), cs1.dropWhile Char.isDigit)

/-- Read an exponent part, if present; as a scale factor. -/
def parseExp (cs : List Char) : Option (ℚ × List Char) :=
  match cs with
  | 'e' :: rest => parseExpTail rest
  | 'E' :: rest => parseExpTail rest
  | _ => some (1, cs)

/-- Read an unsigned number. -/
def parseNumPos (cs : List Char) : Option (ℚ × List Char) :=
  let ds := cs.takeWhile Char.isDigit
  if ds = [] then none
  else do
    let (f, cs2) ← parseFrac (cs.dropWhile Char.isDigit)
    let (x, cs3) ← parseExp cs2
    some (((digitsToNat ds : ℚ) + f) * x, cs3)

/-- Read a number with an optional minus sign. -/
def parseNum (cs : List Char) : Option (ℚ × List Char) :=
  match cs with
  | '-' :: rest => (parseNumPos rest).map (fun p => (-p.1, p.2))
  | _ => parseNumPos cs

mutual

/-- Read one JSON value after optional whitespace; `fuel` bounds the
recursion depth. -/
def parseVal : ℕ → List Char → Option (Json × List Char)
  | 0, _ => none
  | f + 1, cs =>
    match skipWs cs with
    | 'n' :: 'u' :: 'l' :: 'l' :: rest => some (.null, rest)
    | 't' :: 'r' :: 'u' :: 'e' :: rest => some (.bool true, rest)
    | 'f' :: 'a' :: 'l' :: 's' :: 'e' :: rest => some (.bool false, rest)
    | '"' :: rest => (parseStringBody rest).map (fun p => (.str ⟨p.1⟩, p.2))
    | '[' :: rest =>
      (match skipWs rest with
       | ']' :: rest2 => some (.arr [], rest2)
       | _ => (parseItems f rest).map (fun p => (.arr p.1, p.2)))
    | '\x7b' :: rest =>
      (match skipWs rest with
       | '\x7d' :: rest2 => some (.obj [], rest2)
       | _ => (parseMembers f rest).map (fun p => (.obj p.1, p.2)))
    | rest => (parseNum rest).map (fun p => (.num p.1, p.2))

/-- Read the elements of a non-empty array, including the closing
bracket. -/
def parseItems : ℕ → List Char → Option (List Json × List Char)
  | 0, _ => none
  | f + 1, cs => do
    let (v, r1) ← parseVal f cs
    match skipWs r1 with
    | ',' :: r2 => (parseItems f r2).map (fun p => (v :: p.1, p.2))
    | ']' :: r2 => some ([v], r2)
    | _ => none

/-- Read the members of a non-empty object, including the closing
brace. -/
def parseMembers : ℕ → List Char → Option (List (String × Json) × List Char)
  | 0, _ => none
  | f + 1, cs =>
    match skipWs cs with
    | '"' :: rest => do
      let (k, r1) ← parseStringBody rest
      match skipWs r1 with
      | ':' :: r2 => do
        let (v, r3) ← parseVal f r2
        match skipWs r3 with
        | ',' :: r4 => (parseMembers f r4).map (fun p => ((⟨k⟩, v) :: p.1, p.2))
        | '\x7d' :: r4 => some ([(⟨k⟩, v)], r4)
        | _ => none
      | _ => none
    | _ => none

end

/-- Embeds `JSON.parse(s)`: one value, then only trailing whitespace.
The fuel `s.length + 1` is enough for any parseable input because every
recursive descent consumes at least one character. -/
def jsonParse (s : String) : Option Json :=
  match parseVal (s.data.length + 1) s.data with
  | some (j, rest) => if skipWs rest = [] then some j else none
  | none => none

mutual

/-- Every number in the value has a finite decimal expansion; true of
every value built from IEEE doubles, hence of every payload a
JavaScript runtime can hold. -/
def serializable : Json → Bool
  | .null => true
  | .bool _ => true
  | .num q => decide (FiniteDecimal q)
  | .str _ => true
  | .arr xs => serializableItems xs
  | .obj ms => serializableMembers ms

/-- `serializable` on each element. -/
def serializableItems : List Json → Bool
  | [] => true
  | x :: xs => serializable x && serializableItems xs

/-- `serializable` on each member value. -/
def serializableMembers : List (String × Json) → Bool
  | [] => true
  | (_, v) :: ms => serializable v && serializableMembers ms

end

mutual

/-- Enough parser fuel for a value. -/
def fuelV : Json → ℕ
  | .null => 1
  | .bool _ => 1
  | .num _ => 1
  | .str _ => 1
  | .arr xs => fuelItemsF xs + 1
  | .obj ms => fuelMembersF ms + 1

/-- Enough parser fuel for the element list of an array. -/
def fuelItemsF : List Json → ℕ
  | [] => 1
  | x :: xs => fuelV x + fuelItemsF xs + 1

/-- Enough parser fuel for the member list of an object. -/
def fuelMembersF : List (String × Json) → ℕ
  | [] => 1
  | (_, v) :: ms => fuelV v + fuelMembersF ms + 1

end

/-- The characters that may legally follow a printed number without
extending it: anything that is neither a digit nor `.`, `e`, `E`. -/
def SafeFollower : List Char → Prop
  | [] => True
  | c :: _ => c.isDigit = false ∧ c ≠ '.' ∧ c ≠ 'e' ∧ c ≠ 'E'

namespace ParsedDataDialog

/-- The scrutinee of the dialog classifier:
`parsedData && typeof parsedData.parse_status === "string" ?
parsedData.parse_status : null`.  Property access on a missing key yields
`undefined`, which is not a string. -/
def statusString (parsedData : ParsedData) : Option String :=
  match parsedData with
  | none => none
  | some m =>
    match m.lookup "parse_status" with
    | some (Json.str s) => some s
    | _ => none

/-- `getParseStatusBadge` of `ParsedDataDialog`: the `switch` on the
status string with cases `full`, `partial`, `failed`, `unsupported` and a
default branch. -/
def getParseStatusBadge (parsedData : ParsedData) : StatusBadge :=
  match statusString parsedData with
  | some "full" => ⟨"已解析", .secondary⟩
  | some "partial" => ⟨"部分解析", .secondary⟩
  | some "failed" => ⟨"解析失败", .destructive⟩
  | some "unsupported" => ⟨"不支持解析", .outline⟩
  | _ => ⟨"未解析", .outline⟩

/-- The branch of the `switch` in `getParseStatusBadge` that fires, read
as the spec's `ParseOutcome`: the default branch is `Unparsed`. -/
def classify (parsedData : ParsedData) : ParseOutcome :=
  match statusString parsedData with
  | some "full" => .full
  | some "partial" => .part
  | some "failed" => .failed
  | some "unsupported" => .unsupported
  | _ => .unparsed

end ParsedDataDialog

/-- The aggregate `ParseResultView` of spec §3. -/
structure ParseResultView where
  outcome : ParseOutcome
  message : String
  rows : List SummaryRow
  rawText : String
  rawJson : String
deriving DecidableEq

/-- `buildView` of spec §4.4, assembled from the dialog's functions: the
dialog component computes exactly these five projections of the
`(kind, parsedData)` pair. -/
def buildView (kind : ParsedKind) (parsedData : ParsedData) : ParseResultView :=
  { outcome := ParsedDataDialog.classify parsedData
    message := getParseMessage parsedData
    rows := getSummaryRows kind parsedData
    rawText := getRawText parsedData
    rawJson := getJsonText parsedData }

namespace ContractColumns

/-- The fields of `ContractPublic` read by the badge adapter:
`file_path` is a nullable string (`none` models `null`/`undefined`),
`parsed_data` the optional payload object. -/
structure ContractPublic where
  file_path : Option String
  parsed_data : ParsedData

/-- `getParseStatusBadge` of `contract-columns.tsx`: a falsy `file_path`
(missing or empty) short-circuits to the `未上传` badge; otherwise the
same `switch` on the string `parse_status` field, with default label
`待解析`. -/
def getParseStatusBadge (contract : ContractPublic) : StatusBadge :=
  match contract.file_path with
  | none => ⟨"未上传", .outline⟩
  | some "" => ⟨"未上传", .outline⟩
  | some _ =>
    let status : Option String :=
      match contract.parsed_data with
      | none => none
      | some m =>
        match m.lookup "parse_status" with
        | some (Json.str s) => some s
        | _ => none
    match status with
    | some "full" => ⟨"已解析", .secondary⟩
    | some "partial" => ⟨"部分解析", .secondary⟩
    | some "failed" => ⟨"解析失败", .destructive⟩
    | some "unsupported" => ⟨"不支持解析", .outline⟩
    | _ => ⟨"待解析", .outline⟩

end ContractColumns

namespace InvoiceColumns

/-- The fields of `InvoicePublic` read by the badge adapter. -/
structure InvoicePublic where
  file_path : Option String
  parsed_data : ParsedData

/-- `getParseStatusBadge` of `invoice-columns.tsx`: textually the same
adapter as the contract one, defined independently in its own file. -/
def getParseStatusBadge (invoice : InvoicePublic) : StatusBadge :=
  match invoice.file_path with
  | none => ⟨"未上传", .outline⟩
  | some "" => ⟨"未上传", .outline⟩
  | some _ =>
    let status : Option String :=
      match invoice.parsed_data with
      | none => none
      | some m =>
        match m.lookup "parse_status" with
        | some (Json.str s) => some s
        | _ => none
    match status with
    | some "full" => ⟨"已解析", .secondary⟩
    | some "partial" => ⟨"部分解析", .secondary⟩
    | some "failed" => ⟨"解析失败", .destructive⟩
    | some "unsupported" => ⟨"不支持解析", .outline⟩
    | _ => ⟨"待解析", .outline⟩

end InvoiceColumns

/-- Modelled from the claim wording (C1 / spec §4.1), for comparison with
the code: absent payload ⇒ `Unparsed`; a string-typed `parse_status`
equal to one of the four recognized words ⇒ the corresponding outcome;
every other case (field absent, non-string, unrecognized string) ⇒
`Unparsed`. -/
def specClassify (parsedData : ParsedData) : ParseOutcome :=
  match parsedData with
  | none => .unparsed
  | some m =>
    match m.lookup "parse_status" with
    | some (Json.str s) =>
      if s = "full" then .full
      else if s = "partial" then .part
      else if s = "failed" then .failed
      else if s = "unsupported" then .unsupported
      else .unparsed
    | _ => .unparsed

/-- The badge table of the two row-level adapters, indexed by outcome:
the label/variant pair each `switch` branch returns, with `待解析` for
the default branch. -/
def listBadgeOf : ParseOutcome → StatusBadge
  | .full => ⟨"已解析", .secondary⟩
  | .part => ⟨"部分解析", .secondary⟩
  | .failed => ⟨"解析失败", .destructive⟩
  | .unsupported => ⟨"不支持解析", .outline⟩
  | .unparsed => ⟨"待解析", .outline⟩

/-- The badge table of the dialog classifier, indexed by outcome: same
as the row table except the default label `未解析`. -/
def dialogBadgeOf : ParseOutcome → StatusBadge
  | .full => ⟨"已解析", .secondary⟩
  | .part => ⟨"部分解析", .secondary⟩
  | .failed => ⟨"解析失败", .destructive⟩
  | .unsupported => ⟨"不支持解析", .outline⟩
  | .unparsed => ⟨"未解析", .outline⟩

/-- The variant of the row-level badge per outcome: the severity mapping
the row adapters actually implement. -/
def rowVariantOf (o : ParseOutcome) : BadgeVariant :=
  (listBadgeOf o).variant

/-- The number of characters after the last `.` of a rendered string:
the count of fraction digits of a formatted amount. -/
def fracDigitCount (s : String) : ℕ :=
  (s.data.reverse.takeWhile (fun c => c != '.')).length

/-- C1: the dialog status classification is a total function agreeing
with the spec's description everywhere: absent payload ⇒ `Unparsed`;
string `parse_status` in `{full, partial, failed, unsupported}` ⇒ the
matching outcome; anything else (missing field, the number `42`, the
string `"bogus"`) ⇒ `Unparsed`. -/
theorem classify_total_matches_spec :
    (∀ p : ParsedData, ParsedDataDialog.classify p = specClassify p) ∧
    ParsedDataDialog.classify none = .unparsed ∧
    ParsedDataDialog.classify (some [("parse_status", .str "full")]) = .full ∧
    ParsedDataDialog.classify (some [("parse_status", .str "bogus")]) = .unparsed ∧
    ParsedDataDialog.classify (some [("parse_status", .num 42)]) = .unparsed := by
  refine ⟨?_, by decide, by decide, by decide, by decide⟩
  intro p
  match p with
  | none => rfl
  | some m =>
    show ParsedDataDialog.classify (some m) = specClassify (some m)
    have hs : ParsedDataDialog.statusString (some m) =
        match m.lookup "parse_status" with
        | some (Json.str s) => some s
        | _ => none := rfl
    match hl : m.lookup "parse_status" with
    | none => simp [ParsedDataDialog.classify, specClassify,
        ParsedDataDialog.statusString, hl]
    | some Json.null => simp [ParsedDataDialog.classify, specClassify,
        ParsedDataDialog.statusString, hl]
    | some (Json.bool b) => simp [ParsedDataDialog.classify, specClassify,
        ParsedDataDialog.statusString, hl]
    | some (Json.num q) => simp [ParsedDataDialog.classify, specClassify,
        ParsedDataDialog.statusString, hl]
    | some (Json.arr xs) => simp [ParsedDataDialog.classify, specClassify,
        ParsedDataDialog.statusString, hl]
    | some (Json.obj ms) => simp [ParsedDataDialog.classify, specClassify,
        ParsedDataDialog.statusString, hl]
    | some (Json.str s) =>
      by_cases h1 : s = "full"
      · subst h1
        simp [ParsedDataDialog.classify, specClassify,
          ParsedDataDialog.statusString, hl]
      by_cases h2 : s = "partial"
      · subst h2
        simp [ParsedDataDialog.classify, specClassify,
          ParsedDataDialog.statusString, hl]
      by_cases h3 : s = "failed"
      · subst h3
        simp [ParsedDataDialog.classify, specClassify,
          ParsedDataDialog.statusString, hl]
      by_cases h4 : s = "unsupported"
      · subst h4
        simp [ParsedDataDialog.classify, specClassify,
          ParsedDataDialog.statusString, hl]
      simp [ParsedDataDialog.classify, specClassify,
        ParsedDataDialog.statusString, hl, h1, h2, h3, h4]


/-! ## Helper lemmas: the badge tables behind the status switches -/

theorem dialog_badge_eq_table (pd : ParsedData) :
    ParsedDataDialog.getParseStatusBadge pd = dialogBadgeOf (ParsedDataDialog.classify pd) := by
  unfold ParsedDataDialog.getParseStatusBadge ParsedDataDialog.classify
    ParsedDataDialog.statusString
  split <;> rfl

theorem contract_badge_eq_table (fp : String) (pd : ParsedData) (hfp : fp ≠ "") :
    ContractColumns.getParseStatusBadge ⟨some fp, pd⟩ =
      listBadgeOf (ParsedDataDialog.classify pd) := by
  unfold ContractColumns.getParseStatusBadge ParsedDataDialog.classify
    ParsedDataDialog.statusString
  dsimp only
  split
  · simp_all
  · simp_all
  · split <;> rfl

theorem invoice_badge_eq_table (fp : String) (pd : ParsedData) (hfp : fp ≠ "") :
    InvoiceColumns.getParseStatusBadge ⟨some fp, pd⟩ =
      listBadgeOf (ParsedDataDialog.classify pd) := by
  unfold InvoiceColumns.getParseStatusBadge ParsedDataDialog.classify
    ParsedDataDialog.statusString
  dsimp only
  split
  · simp_all
  · simp_all
  · split <;> rfl

theorem statusString_some (m : List (String × Json)) (s : String)
    (h : ParsedDataDialog.statusString (some m) = some s) :
    m.lookup "parse_status" = some (Json.str s) := by
  unfold ParsedDataDialog.statusString at h
  dsimp only at h
  split at h
  · rename_i s2 heq
    cases h
    exact heq
  · cases h

/-- C2: for every kind and payload, building the view is a total
computation assembled from the five projections; an absent payload
collapses to the all-fallback view, and a present payload with missing
or mistyped `parse_message` / `raw_text` / `parse_status` fields
resolves to the placeholder message, the empty raw text, and the
`Unparsed` outcome, while the row list keeps its structural length. -/
theorem buildView_total_with_fallbacks :
    ∀ (k : ParsedKind) (p : ParsedData),
      buildView k p = ⟨ParsedDataDialog.classify p, getParseMessage p,
        getSummaryRows k p, getRawText p, getJsonText p⟩ ∧
      (p = none → buildView k p = ⟨.unparsed, "暂无解析信息", [], "", ""⟩) ∧
      (∀ m, p = some m →
        (buildView k p).rows.length = (match k with | .contract => 8 | .invoice => 7) ∧
        ((∀ s, m.lookup "parse_message" ≠ some (Json.str s)) →
          (buildView k p).message = "暂无解析信息") ∧
        ((∀ s, m.lookup "raw_text" ≠ some (Json.str s)) →
          (buildView k p).rawText = "") ∧
        ((∀ s, m.lookup "parse_status" ≠ some (Json.str s)) →
          (buildView k p).outcome = .unparsed)) := by
  intro k p
  refine ⟨rfl, ?_, ?_⟩
  · rintro rfl
    cases k <;> rfl
  · rintro m rfl
    refine ⟨by cases k <;> rfl, ?_, ?_, ?_⟩
    · intro h
      show getParseMessage (some m) = "暂无解析信息"
      unfold getParseMessage
      dsimp only
      split
      · rename_i s heq
        exact absurd heq (h s)
      · rfl
    · intro h
      show getRawText (some m) = ""
      unfold getRawText
      dsimp only
      split
      · rename_i s heq
        exact absurd heq (h s)
      · rfl
    · intro h
      show ParsedDataDialog.classify (some m) = .unparsed
      unfold ParsedDataDialog.classify
      split <;>
        first
          | rfl
          | (rename_i heq; exact absurd (statusString_some m _ heq) (h _))

theorem buildView_total_with_fallbacks_witness :
    buildView .contract none = ⟨.unparsed, "暂无解析信息", [], "", ""⟩ ∧
    (buildView .invoice (some [("amount", Json.num 7)])).message = "暂无解析信息" :=
  ⟨(buildView_total_with_fallbacks .contract none).2.1 rfl,
    ((buildView_total_with_fallbacks .invoice (some [("amount", Json.num 7)])).2.2
      [("amount", Json.num 7)] rfl).2.1 (fun _ h => nomatch h)⟩

/-- C3: the summary-row list is a fixed projection: for every present
payload the contract rows carry exactly these eight distinct labels in
this order and the invoice rows these seven, an absent payload yields no
rows, and a payload with all fields missing still yields every row, each
with the `-` placeholder value. -/
theorem summaryRows_structure :
    (∀ m : List (String × Json),
      (getSummaryRows .contract (some m)).map SummaryRow.label =
        ["甲方", "乙方", "合同编号", "签约日期", "生效日期", "到期日期", "合同金额", "盖章页"] ∧
      (getSummaryRows .contract (some m)).length = 8 ∧
      (getSummaryRows .invoice (some m)).map SummaryRow.label =
        ["发票号码", "发票代码", "开票日期", "销售方", "购买方", "发票金额", "税额"] ∧
      (getSummaryRows .invoice (some m)).length = 7) ∧
    (∀ k, getSummaryRows k none = []) ∧
    (["甲方", "乙方", "合同编号", "签约日期", "生效日期", "到期日期", "合同金额", "盖章页"].Nodup ∧
      ["发票号码", "发票代码", "开票日期", "销售方", "购买方", "发票金额", "税额"].Nodup) ∧
    getSummaryRows .contract (some []) =
      [⟨"甲方", "-"⟩, ⟨"乙方", "-"⟩, ⟨"合同编号", "-"⟩, ⟨"签约日期", "-"⟩,
        ⟨"生效日期", "-"⟩, ⟨"到期日期", "-"⟩, ⟨"合同金额", "-"⟩, ⟨"盖章页", "-"⟩] ∧
    getSummaryRows .invoice (some []) =
      [⟨"发票号码", "-"⟩, ⟨"发票代码", "-"⟩, ⟨"开票日期", "-"⟩, ⟨"销售方", "-"⟩,
        ⟨"购买方", "-"⟩, ⟨"发票金额", "-"⟩, ⟨"税额", "-"⟩] := by
  refine ⟨fun m => ⟨rfl, rfl, rfl, rfl⟩, fun k => by cases k <;> rfl,
    ⟨by decide, by decide⟩, rfl, rfl⟩

/-- C5 counterexample: in both row-level badge adapters the `partial`
and `full` statuses are rendered with the same `secondary` variant, so
they do not receive different severities. -/
theorem partial_full_same_variant :
    (ContractColumns.getParseStatusBadge
      ⟨some "a.pdf", some [("parse_status", Json.str "partial")]⟩).variant = .secondary ∧
    (ContractColumns.getParseStatusBadge
      ⟨some "a.pdf", some [("parse_status", Json.str "full")]⟩).variant = .secondary ∧
    (InvoiceColumns.getParseStatusBadge
      ⟨some "a.pdf", some [("parse_status", Json.str "partial")]⟩).variant = .secondary ∧
    (InvoiceColumns.getParseStatusBadge
      ⟨some "a.pdf", some [("parse_status", Json.str "full")]⟩).variant = .secondary :=
  ⟨rfl, rfl, rfl, rfl⟩

/-- C5 amended: the row-level badge adapters map the five outcomes onto
three severities: `Unparsed` and `Unsupported` to the neutral `outline`,
`Partial` and `Full` both to the non-alerting `secondary` tone, and
`Failed` to the alerting `destructive`; `Partial` and `Full` receive the
same severity. -/
theorem rowBadge_severity_mapping (fp : String) (pd : ParsedData) (hfp : fp ≠ "") :
    (ContractColumns.getParseStatusBadge ⟨some fp, pd⟩).variant =
      rowVariantOf (ParsedDataDialog.classify pd) ∧
    (InvoiceColumns.getParseStatusBadge ⟨some fp, pd⟩).variant =
      rowVariantOf (ParsedDataDialog.classify pd) ∧
    rowVariantOf .unparsed = .outline ∧
    rowVariantOf .unsupported = .outline ∧
    rowVariantOf .part = .secondary ∧
    rowVariantOf .full = .secondary ∧
    rowVariantOf .failed = .destructive ∧
    rowVariantOf .part = rowVariantOf .full := by
  refine ⟨?_, ?_, rfl, rfl, rfl, rfl, rfl, rfl⟩
  · rw [contract_badge_eq_table fp pd hfp]
    rfl
  · rw [invoice_badge_eq_table fp pd hfp]
    rfl

theorem rowBadge_severity_mapping_witness :
    (ContractColumns.getParseStatusBadge ⟨some "a.pdf", none⟩).variant =
      rowVariantOf (ParsedDataDialog.classify none) :=
  (rowBadge_severity_mapping "a.pdf" none (by decide)).1

/-- C9: both list-badge adapters check the file reference before the
payload: without a truthy `file_path` they return `未上传` whatever the
payload says (even a `full` status), and with one they return exactly
the classification's list badge, whose default label is `待解析`. -/
theorem listBadge_checks_file_first (fp : String) (pd : ParsedData) :
    ContractColumns.getParseStatusBadge ⟨none, pd⟩ = ⟨"未上传", .outline⟩ ∧
    InvoiceColumns.getParseStatusBadge ⟨none, pd⟩ = ⟨"未上传", .outline⟩ ∧
    ContractColumns.getParseStatusBadge ⟨some "", pd⟩ = ⟨"未上传", .outline⟩ ∧
    InvoiceColumns.getParseStatusBadge ⟨some "", pd⟩ = ⟨"未上传", .outline⟩ ∧
    ContractColumns.getParseStatusBadge
      ⟨none, some [("parse_status", Json.str "full")]⟩ = ⟨"未上传", .outline⟩ ∧
    InvoiceColumns.getParseStatusBadge
      ⟨none, some [("parse_status", Json.str "full")]⟩ = ⟨"未上传", .outline⟩ ∧
    (fp ≠ "" →
      ContractColumns.getParseStatusBadge ⟨some fp, pd⟩ =
        listBadgeOf (ParsedDataDialog.classify pd) ∧
      InvoiceColumns.getParseStatusBadge ⟨some fp, pd⟩ =
        listBadgeOf (ParsedDataDialog.classify pd) ∧
      listBadgeOf .unparsed = ⟨"待解析", .outline⟩) :=
  ⟨rfl, rfl, rfl, rfl, rfl, rfl, fun hfp =>
    ⟨contract_badge_eq_table fp pd hfp, invoice_badge_eq_table fp pd hfp, rfl⟩⟩

theorem listBadge_checks_file_first_witness :
    ContractColumns.getParseStatusBadge ⟨some "a.pdf", none⟩ =
      listBadgeOf (ParsedDataDialog.classify none) :=
  ((listBadge_checks_file_first "a.pdf" none).2.2.2.2.2.2 (by decide)).1

/-- C10: with a file reference present, the two row-level classifiers
return identical badges everywhere, their variant always equals the
dialog classifier's variant, their whole badge equals the dialog's for
every recognized (non-default) outcome, and the only difference is the
default label: `未解析` in the dialog versus `待解析` in the rows. -/
theorem classifiers_consistent (fp : String) (pd : ParsedData) (hfp : fp ≠ "") :
    ContractColumns.getParseStatusBadge ⟨some fp, pd⟩ =
      InvoiceColumns.getParseStatusBadge ⟨some fp, pd⟩ ∧
    (ContractColumns.getParseStatusBadge ⟨some fp, pd⟩).variant =
      (ParsedDataDialog.getParseStatusBadge pd).variant ∧
    (ParsedDataDialog.classify pd ≠ .unparsed →
      ContractColumns.getParseStatusBadge ⟨some fp, pd⟩ =
        ParsedDataDialog.getParseStatusBadge pd) ∧
    (ParsedDataDialog.classify pd = .unparsed →
      ParsedDataDialog.getParseStatusBadge pd = ⟨"未解析", .outline⟩ ∧
      ContractColumns.getParseStatusBadge ⟨some fp, pd⟩ = ⟨"待解析", .outline⟩) := by
  rw [contract_badge_eq_table fp pd hfp, invoice_badge_eq_table fp pd hfp,
    dialog_badge_eq_table pd]
  refine ⟨rfl, ?_, ?_, ?_⟩
  · cases ParsedDataDialog.classify pd <;> rfl
  · intro h
    cases hc : ParsedDataDialog.classify pd
    · exact absurd hc h
    all_goals rfl
  · intro h
    rw [h]
    exact ⟨rfl, rfl⟩

theorem classifiers_consistent_witness :
    ContractColumns.getParseStatusBadge
        ⟨some "a.pdf", some [("parse_status", Json.str "partial")]⟩ =
      InvoiceColumns.getParseStatusBadge
        ⟨some "a.pdf", some [("parse_status", Json.str "partial")]⟩ :=
  (classifiers_consistent "a.pdf" (some [("parse_status", Json.str "partial")])
    (by decide)).1

/-! ## Helper lemmas: decimal digits -/

theorem digitChar_isDigit (k : ℕ) : (digitChar k).isDigit = true := by
  unfold digitChar
  split <;> decide

theorem digitVal_digitChar (k : ℕ) (h : k < 10) : digitVal (digitChar k) = k := by
  interval_cases k <;> decide

theorem natToDigitsAux_congr : ∀ (f g n : ℕ), n < f → n < g →
    natToDigitsAux f n = natToDigitsAux g n := by
  intro f
  induction f with
  | zero =>
    intro g n h
    omega
  | succ f ih =>
    intro g n hf hg
    match g, hg with
    | g + 1, _ =>
      simp only [natToDigitsAux]
      split
      · rfl
      · rename_i h10
        have hdiv : n / 10 < n := Nat.div_lt_self (by omega) (by omega)
        rw [ih g (n / 10) (by omega) (by omega)]

theorem natToDigits_eq (n : ℕ) :
    natToDigits n = if n < 10 then [digitChar n]
      else natToDigits (n / 10) ++ [digitChar (n % 10)] := by
  show natToDigitsAux (n + 1) n = _
  conv_lhs => rw [natToDigitsAux]
  split
  · rfl
  · rename_i h10
    have hdiv : n / 10 < n := Nat.div_lt_self (by omega) (by omega)
    exact congrArg (· ++ [digitChar (n % 10)])
      (natToDigitsAux_congr n (n / 10 + 1) (n / 10) (by omega) (by omega))

theorem factorMultAux_congr (p : ℕ) : ∀ (f g n : ℕ), n < f → n < g →
    factorMultAux p f n = factorMultAux p g n := by
  intro f
  induction f with
  | zero =>
    intro g n h
    omega
  | succ f ih =>
    intro g n hf hg
    match g, hg with
    | g + 1, _ =>
      simp only [factorMultAux]
      split
      · rename_i h
        have hdiv : n / p < n := Nat.div_lt_self h.2.1 h.1
        rw [ih g (n / p) (by omega) (by omega)]
      · rfl

theorem factorMult_eq (p n : ℕ) :
    factorMult p n = if 1 < p ∧ 0 < n ∧ p ∣ n then factorMult p (n / p) + 1 else 0 := by
  show factorMultAux p (n + 1) n = _
  conv_lhs => rw [factorMultAux]
  split
  · rename_i h
    have hdiv : n / p < n := Nat.div_lt_self h.2.1 h.1
    exact congrArg (· + 1)
      (factorMultAux_congr p n (n / p + 1) (n / p) (by omega) (by omega))
  · rfl

theorem stripFactorAux_congr (p : ℕ) : ∀ (f g n : ℕ), n < f → n < g →
    stripFactorAux p f n = stripFactorAux p g n := by
  intro f
  induction f with
  | zero =>
    intro g n h
    omega
  | succ f ih =>
    intro g n hf hg
    match g, hg with
    | g + 1, _ =>
      simp only [stripFactorAux]
      split
      · rename_i h
        have hdiv : n / p < n := Nat.div_lt_self h.2.1 h.1
        rw [ih g (n / p) (by omega) (by omega)]
      · rfl

theorem stripFactor_eq (p n : ℕ) :
    stripFactor p n = if 1 < p ∧ 0 < n ∧ p ∣ n then stripFactor p (n / p) else n := by
  show stripFactorAux p (n + 1) n = _
  conv_lhs => rw [stripFactorAux]
  split
  · rename_i h
    have hdiv : n / p < n := Nat.div_lt_self h.2.1 h.1
    exact stripFactorAux_congr p n (n / p + 1) (n / p) (by omega) (by omega)
  · rfl

theorem natToDigits_ne_nil (n : ℕ) : natToDigits n ≠ [] := by
  rw [natToDigits_eq]
  split
  · simp
  · simp

theorem natToDigits_all_digits (n : ℕ) : ∀ c ∈ natToDigits n, c.isDigit = true := by
  induction n using Nat.strong_induction_on with
  | _ n ih =>
    rw [natToDigits_eq]
    split
    · intro c hc
      rw [List.mem_singleton] at hc
      subst hc
      exact digitChar_isDigit n
    · intro c hc
      rw [List.mem_append] at hc
      rcases hc with hc | hc
      · exact ih (n / 10) (Nat.div_lt_self (by omega) (by omega)) c hc
      · rw [List.mem_singleton] at hc
        subst hc
        exact digitChar_isDigit (n % 10)

theorem natToDigits_length_le (n e : ℕ) (he : 0 < e) (h : n < 10 ^ e) :
    (natToDigits n).length ≤ e := by
  induction n using Nat.strong_induction_on generalizing e with
  | _ n ih =>
    rw [natToDigits_eq]
    split
    · simpa using he
    · rename_i hn
      have he2 : 2 ≤ e := by
        by_contra hlt
        have : e = 1 := by omega
        subst this
        simp at h
        omega
      have hdiv : n / 10 < 10 ^ (e - 1) := by
        rw [Nat.div_lt_iff_lt_mul (by omega)]
        calc n < 10 ^ e := h
        _ = 10 ^ (e - 1) * 10 := by
            rw [← pow_succ]
            congr 1
            omega
      have := ih (n / 10) (Nat.div_lt_self (by omega) (by omega)) (e - 1) (by omega) hdiv
      simp only [List.length_append, List.length_cons, List.length_nil]
      omega

theorem digitsToNat_append_singleton (xs : List Char) (c : Char) :
    digitsToNat (xs ++ [c]) = 10 * digitsToNat xs + (c.toNat - 48) := by
  unfold digitsToNat
  rw [List.foldl_append]
  rfl

theorem digitsToNat_natToDigits (n : ℕ) : digitsToNat (natToDigits n) = n := by
  induction n using Nat.strong_induction_on with
  | _ n ih =>
    rw [natToDigits_eq]
    split
    · rename_i hn
      show digitsToNat [digitChar n] = n
      have h1 : digitsToNat [digitChar n] = (digitChar n).toNat - 48 := by
        unfold digitsToNat
        simp
      rw [h1]
      exact digitVal_digitChar n hn
    · rename_i hn
      rw [digitsToNat_append_singleton, ih (n / 10) (Nat.div_lt_self (by omega) (by omega))]
      have := digitVal_digitChar (n % 10) (by omega)
      unfold digitVal at this
      omega

theorem digitsToNat_replicate_zero (k : ℕ) (ds : List Char) :
    digitsToNat (List.replicate k '0' ++ ds) = digitsToNat ds := by
  unfold digitsToNat
  rw [List.foldl_append]
  have : List.foldl (fun a c => 10 * a + (c.toNat - 48)) 0 (List.replicate k '0') = 0 := by
    induction k with
    | zero => rfl
    | succ k ihk =>
      rw [List.replicate_succ, List.foldl_cons]
      simpa using ihk
  rw [this]

theorem digitsToNat_padDigits (e n : ℕ) :
    digitsToNat (padDigits e n) = n := by
  unfold padDigits
  rw [digitsToNat_replicate_zero, digitsToNat_natToDigits]

theorem padDigits_length (e n : ℕ) (he : 0 < e) (h : n < 10 ^ e) :
    (padDigits e n).length = e := by
  unfold padDigits
  have := natToDigits_length_le n e he h
  simp only [List.length_append, List.length_replicate]
  omega

theorem padDigits_all_digits (e n : ℕ) : ∀ c ∈ padDigits e n, c.isDigit = true := by
  intro c hc
  unfold padDigits at hc
  rw [List.mem_append] at hc
  rcases hc with hc | hc
  · rw [List.eq_of_mem_replicate hc]
    decide
  · exact natToDigits_all_digits n c hc

theorem takeWhile_append_stop {p : Char → Bool} (xs ys : List Char)
    (hx : ∀ c ∈ xs, p c = true)
    (hy : ∀ c t, ys = c :: t → p c = false) :
    (xs ++ ys).takeWhile p = xs := by
  induction xs with
  | nil =>
    match ys with
    | [] => rfl
    | c :: t =>
      simp only [List.nil_append]
      rw [List.takeWhile_cons_of_neg (by simp [hy c t rfl])]
  | cons x xs ih =>
    simp only [List.cons_append]
    rw [List.takeWhile_cons_of_pos (hx x (by simp)),
      ih (fun c hc => hx c (by simp [hc]))]

theorem dropWhile_append_stop {p : Char → Bool} (xs ys : List Char)
    (hx : ∀ c ∈ xs, p c = true)
    (hy : ∀ c t, ys = c :: t → p c = false) :
    (xs ++ ys).dropWhile p = ys := by
  induction xs with
  | nil =>
    match ys with
    | [] => rfl
    | c :: t =>
      simp only [List.nil_append]
      rw [List.dropWhile_cons_of_neg (by simp [hy c t rfl])]
  | cons x xs ih =>
    simp only [List.cons_append]
    rw [List.dropWhile_cons_of_pos (hx x (by simp)),
      ih (fun c hc => hx c (by simp [hc]))]

/-! ## Helper lemmas: `String.intercalate` and integer rendering -/

theorem intercalate_go_data (s : String) (as : List String) :
    ∀ acc : String, (String.intercalate.go acc s as).data =
      acc.data ++ as.flatMap (fun a => s.data ++ a.data) := by
  induction as with
  | nil =>
    intro acc
    simp [String.intercalate.go]
  | cons a as ih =>
    intro acc
    rw [String.intercalate.go, ih]
    simp [String.data_append, List.append_assoc]

theorem intercalate_cons_data (s a : String) (as : List String) :
    (String.intercalate s (a :: as)).data =
      a.data ++ as.flatMap (fun x => s.data ++ x.data) := by
  show (String.intercalate.go a s as).data = _
  rw [intercalate_go_data]

theorem factorMult_one (p : ℕ) : factorMult p 1 = 0 := by
  rw [factorMult_eq]
  rw [if_neg]
  rintro ⟨h1, _, h3⟩
  have := Nat.le_of_dvd (by omega) h3
  omega

theorem stripFactor_one (p : ℕ) : stripFactor p 1 = 1 := by
  rw [stripFactor_eq]
  rw [if_neg]
  rintro ⟨h1, _, h3⟩
  have := Nat.le_of_dvd (by omega) h3
  omega

theorem decExp_natCast (n : ℕ) : decExp (n : ℚ) = 0 := by
  unfold decExp
  rw [Rat.den_natCast, stripFactor_one, factorMult_one, factorMult_one]
  rfl

theorem scaledNum_natCast (n : ℕ) : scaledNum (n : ℚ) = n := by
  unfold scaledNum
  rw [decExp_natCast, Rat.den_natCast, Rat.num_natCast]
  simp

theorem numChars_natCast (n : ℕ) : numChars (n : ℚ) = natToDigits n := by
  unfold numChars
  rw [decExp_natCast, scaledNum_natCast]
  simp [Rat.num_natCast]

theorem numToString_natCast (n : ℕ) : numToString (n : ℚ) = ⟨natToDigits n⟩ := by
  unfold numToString
  rw [numChars_natCast]

theorem stampPagesValue_num_list (m : List (String × Json)) (l : List ℕ)
    (hl : m.lookup "stamp_pages" = some (Json.arr (l.map (fun n : ℕ => Json.num (n : ℚ)))))
    (hne : l ≠ []) :
    stampPagesValue m =
      String.intercalate ", " (l.map (fun n : ℕ => (⟨natToDigits (n + 1)⟩ : String))) := by
  have hfm : ∀ ll : List ℕ, (ll.map (fun n : ℕ => Json.num (n : ℚ))).filterMap
      (fun v => match v with | Json.num q => some q | _ => none) =
      ll.map (fun n : ℕ => (n : ℚ)) := by
    intro ll
    induction ll with
    | nil => rfl
    | cons x xs ih =>
      simp only [List.map_cons, List.filterMap_cons]
      rw [ih]
  have hval : ∀ ll : List ℕ,
      (ll.map (fun n : ℕ => (n : ℚ))).map (fun q => numToString (q + 1)) =
      ll.map (fun n => (⟨natToDigits (n + 1)⟩ : String)) := by
    intro ll
    rw [List.map_map]
    apply List.map_congr_left
    intro n _
    show numToString ((n : ℚ) + 1) = _
    have hc : ((n : ℚ) + 1) = ((n + 1 : ℕ) : ℚ) := by
      push_cast
      ring
    rw [hc, numToString_natCast]
  unfold stampPagesValue
  rw [hl]
  dsimp only
  rw [hfm l, hval l]
  rw [if_neg]
  obtain ⟨x, rest, rfl⟩ := List.exists_cons_of_ne_nil hne
  intro heq
  have hdata : (String.intercalate ", "
      ((x :: rest).map (fun n : ℕ => (⟨natToDigits (n + 1)⟩ : String)))).data = [] := by
    rw [heq]
  rw [List.map_cons, intercalate_cons_data] at hdata
  have hnn : natToDigits (x + 1) ≠ [] := natToDigits_ne_nil (x + 1)
  simp only [List.append_eq_nil] at hdata
  exact hnn hdata.1

theorem stampPagesValue_empty_arr (m : List (String × Json))
    (hl : m.lookup "stamp_pages" = some (Json.arr [])) :
    stampPagesValue m = "-" := by
  unfold stampPagesValue
  rw [hl]
  rfl

theorem stampPagesValue_non_arr (m : List (String × Json))
    (h : ∀ vs, m.lookup "stamp_pages" ≠ some (Json.arr vs)) :
    stampPagesValue m = "-" := by
  unfold stampPagesValue
  dsimp only
  split
  · rfl
  · split
    · rename_i vs heq
      exact absurd heq (h vs)
    · rfl

/-- C7: the contract stamp-pages row maps an array of zero-based page
indices to the comma-joined list of their one-based page numbers, and
renders `-` for an empty array or a non-array field; in particular
`[0, 2, 5]` renders as `1, 3, 6`. -/
theorem stampPages_one_based (m : List (String × Json)) :
    (∀ l : List ℕ,
      m.lookup "stamp_pages" = some (Json.arr (l.map (fun n : ℕ => Json.num (n : ℚ)))) →
      l ≠ [] →
      (getSummaryRows .contract (some m))[7]? = some ⟨"盖章页",
        String.intercalate ", " (l.map (fun n : ℕ => (⟨natToDigits (n + 1)⟩ : String)))⟩) ∧
    (m.lookup "stamp_pages" = some (Json.arr []) →
      (getSummaryRows .contract (some m))[7]? = some ⟨"盖章页", "-"⟩) ∧
    ((∀ vs, m.lookup "stamp_pages" ≠ some (Json.arr vs)) →
      (getSummaryRows .contract (some m))[7]? = some ⟨"盖章页", "-"⟩) ∧
    stampPagesValue [("stamp_pages", Json.arr [Json.num 0, Json.num 2, Json.num 5])] =
      "1, 3, 6" := by
  have hrow : (getSummaryRows .contract (some m))[7]? =
      some ⟨"盖章页", stampPagesValue m⟩ := rfl
  refine ⟨?_, ?_, ?_, ?_⟩
  · intro l hl hne
    rw [hrow, stampPagesValue_num_list m l hl hne]
  · intro hl
    rw [hrow, stampPagesValue_empty_arr m hl]
  · intro h
    rw [hrow, stampPagesValue_non_arr m h]
  · have hbridge : ([0, 2, 5] : List ℕ).map (fun n : ℕ => Json.num (n : ℚ)) =
        [Json.num 0, Json.num 2, Json.num 5] := by
      norm_num
    have h136 := stampPagesValue_num_list
      [("stamp_pages", Json.arr [Json.num 0, Json.num 2, Json.num 5])] [0, 2, 5]
      (by rw [hbridge]; rfl) (by decide)
    rw [h136]
    decide

theorem stampPages_one_based_witness :
    (getSummaryRows .contract (some [("stamp_pages",
        Json.arr (([0, 2, 5] : List ℕ).map (fun n : ℕ => Json.num (n : ℚ))))]))[7]? =
      some ⟨"盖章页", String.intercalate ", "
        (([0, 2, 5] : List ℕ).map (fun n : ℕ => (⟨natToDigits (n + 1)⟩ : String)))⟩ :=
  (stampPages_one_based _).1 [0, 2, 5] rfl (by decide)

/-- C8: the date formatter returns `-` for anything that is not a
non-empty string; a non-empty string that does not parse as a calendar
date comes back unchanged; a parsed date renders as the `zh-CN`
day-granularity form `y/m/d` with no time component; in particular
`"not-a-date"` is returned unchanged and `null` renders as `-`. -/
theorem formatDate_cases :
    formatDate none = "-" ∧
    (∀ j : Json, (∀ s, j ≠ Json.str s) → formatDate (some j) = "-") ∧
    formatDate (some (Json.str "")) = "-" ∧
    (∀ s : String, s ≠ "" → parseISODate s = none →
      formatDate (some (Json.str s)) = s) ∧
    (∀ (s : String) (y mo dy : ℕ), parseISODate s = some (y, mo, dy) →
      formatDate (some (Json.str s)) = toLocaleDateStringZhCN y mo dy ∧
      toLocaleDateStringZhCN y mo dy =
        toString y ++ "/" ++ toString mo ++ "/" ++ toString dy) ∧
    formatDate (some (Json.str "not-a-date")) = "not-a-date" ∧
    formatDate (some (Json.str "2024-01-15")) = "2024/1/15" ∧
    formatDate (some Json.null) = "-" := by
  refine ⟨rfl, ?_, rfl, ?_, ?_, rfl, rfl, rfl⟩
  · intro j h
    cases j <;>
      first
        | rfl
        | (rename_i s; exact absurd rfl (h s))
  · intro s hs hp
    unfold formatDate
    dsimp only
    rw [if_neg hs, hp]
  · intro s y mo dy hp
    have hs : s ≠ "" := by
      intro h0
      subst h0
      exact nomatch hp
    constructor
    · unfold formatDate
      dsimp only
      rw [if_neg hs, hp]
    · show ("" ++ toString y ++ "/" ++ toString mo ++ "/" ++ toString dy ++ "" : String) =
        toString y ++ "/" ++ toString mo ++ "/" ++ toString dy
      rw [String.empty_append, String.append_empty]

theorem formatDate_cases_witness :
    formatDate (some (Json.str "abc")) = "abc" ∧
    formatDate (some (Json.str "2024-01-15")) = toLocaleDateStringZhCN 2024 1 15 :=
  ⟨formatDate_cases.2.2.2.1 "abc" (by decide) rfl,
    (formatDate_cases.2.2.2.2.1 "2024-01-15" 2024 1 15 rfl).1⟩

/-! ## Helper lemmas: money formatting -/

theorem isDigit_bne_dot (c : Char) (h : c.isDigit = true) : (c != '.') = true := by
  rw [bne_iff_ne]
  intro heq
  subst heq
  exact absurd h (by decide)

theorem fracDigitCount_concat (a f : String)
    (hf : ∀ c ∈ f.data, c.isDigit = true) :
    fracDigitCount (a ++ "." ++ f) = f.length := by
  unfold fracDigitCount
  have hdata : (a ++ "." ++ f).data = a.data ++ '.' :: f.data := by
    rw [String.data_append, String.data_append, List.append_assoc]
    rfl
  rw [hdata]
  have hrev : (a.data ++ '.' :: f.data).reverse =
      f.data.reverse ++ '.' :: a.data.reverse := by
    rw [List.reverse_append, List.reverse_cons, List.append_assoc]
    rfl
  rw [hrev]
  have ht := takeWhile_append_stop (p := fun c => c != '.') f.data.reverse
    ('.' :: a.data.reverse)
    (fun c hc => isDigit_bne_dot c (hf c (List.mem_reverse.mp hc)))
    (fun c t heq => by cases heq; decide)
  rw [ht, List.length_reverse]
  rfl

theorem cents_mod_ten (q : ℚ) (h : (q * 100).den = 1) :
    ((⌊|q| * 1000 + 1 / 2⌋).toNat % 1000) % 10 = 0 := by
  have hz : (((q * 100).num : ℚ)) = q * 100 := (Rat.den_eq_one_iff (q * 100)).mp h
  set z := (q * 100).num with hzdef
  have habs : |q| * 1000 = ((|z| : ℤ) : ℚ) * 10 := by
    calc |q| * 1000 = |q| * |(100 : ℚ)| * 10 := by
          rw [show |(100 : ℚ)| = 100 from by norm_num]
          ring
    _ = |q * 100| * 10 := by rw [abs_mul]
    _ = |(z : ℚ)| * 10 := by rw [hz]
    _ = ((|z| : ℤ) : ℚ) * 10 := by rw [Int.cast_abs]
  have hfloor : ⌊|q| * 1000 + 1 / 2⌋ = |z| * 10 := by
    rw [habs]
    have : ((|z| : ℤ) : ℚ) * 10 = (((|z| * 10 : ℤ)) : ℚ) := by push_cast; ring
    rw [this, Int.floor_int_add]
    norm_num
  rw [hfloor]
  have hnn : |z| * 10 = ((|z|.toNat * 10 : ℕ) : ℤ) := by
    have : ((|z|.toNat : ℤ)) = |z| := Int.toNat_of_nonneg (abs_nonneg z)
    push_cast
    rw [this]
  rw [hnn, Int.toNat_natCast]
  omega

theorem toLocale_frac_digits (q : ℚ) :
    (fracDigitCount (toLocaleStringZhCN2 q) = 2 ∨
      fracDigitCount (toLocaleStringZhCN2 q) = 3) ∧
    ((q * 100).den = 1 → fracDigitCount (toLocaleStringZhCN2 q) = 2) := by
  unfold toLocaleStringZhCN2
  dsimp only
  have hfp : (⌊|q| * 1000 + 1 / 2⌋).toNat % 1000 < 1000 := Nat.mod_lt _ (by omega)
  by_cases hdz : (⌊|q| * 1000 + 1 / 2⌋).toNat % 1000 % 10 = 0
  · rw [if_pos hdz]
    have hcount : fracDigitCount ((if q < 0 then "-" else "") ++
        groupedNat ((⌊|q| * 1000 + 1 / 2⌋).toNat / 1000) ++ "." ++
        (⟨padDigits 2 ((⌊|q| * 1000 + 1 / 2⌋).toNat % 1000 / 10)⟩ : String)) = 2 := by
      have hcc := fracDigitCount_concat
        ((if q < 0 then "-" else "") ++
          groupedNat ((⌊|q| * 1000 + 1 / 2⌋).toNat / 1000))
        ⟨padDigits 2 ((⌊|q| * 1000 + 1 / 2⌋).toNat % 1000 / 10)⟩
        (padDigits_all_digits 2 ((⌊|q| * 1000 + 1 / 2⌋).toNat % 1000 / 10))
      rw [hcc]
      show (padDigits 2 ((⌊|q| * 1000 + 1 / 2⌋).toNat % 1000 / 10)).length = 2
      exact padDigits_length 2 _ (by omega) (by omega)
    exact ⟨Or.inl hcount, fun _ => hcount⟩
  · rw [if_neg hdz]
    have hcount : fracDigitCount ((if q < 0 then "-" else "") ++
        groupedNat ((⌊|q| * 1000 + 1 / 2⌋).toNat / 1000) ++ "." ++
        (⟨padDigits 3 ((⌊|q| * 1000 + 1 / 2⌋).toNat % 1000)⟩ : String)) = 3 := by
      have hcc := fracDigitCount_concat
        ((if q < 0 then "-" else "") ++
          groupedNat ((⌊|q| * 1000 + 1 / 2⌋).toNat / 1000))
        ⟨padDigits 3 ((⌊|q| * 1000 + 1 / 2⌋).toNat % 1000)⟩
        (padDigits_all_digits 3 ((⌊|q| * 1000 + 1 / 2⌋).toNat % 1000))
      rw [hcc]
      show (padDigits 3 ((⌊|q| * 1000 + 1 / 2⌋).toNat % 1000)).length = 3
      exact padDigits_length 3 _ (by omega) (by omega)
    refine ⟨Or.inr hcount, fun hden => ?_⟩
    exact absurd (cents_mod_ten q hden) hdz

/-- C4 counterexample: the amount `1234.125` is a number, yet
`formatMoney` renders it as `¥1,234.125` with three fraction digits, not
exactly two: `toLocaleString` with `minimumFractionDigits: 2` keeps up
to three fraction digits by default. -/
theorem formatMoney_not_always_two_digits :
    formatMoney (some (Json.num ((9873 : ℚ) / 8))) = "¥1,234.125" ∧
    fracDigitCount "¥1,234.125" = 3 := by
  constructor
  · show "¥" ++ toLocaleStringZhCN2 ((9873 : ℚ) / 8) = "¥1,234.125"
    unfold toLocaleStringZhCN2
    have hfl : ⌊|((9873 : ℚ) / 8)| * 1000 + 1 / 2⌋ = 1234125 := by
      rw [abs_of_pos (by norm_num)]
      norm_num
    rw [hfl, if_neg (by norm_num : ¬((9873 : ℚ) / 8) < 0)]
    decide
  · decide

/-- C4 amended: `formatMoney` returns `-` for every non-number and
renders every number with the `¥` prefix and at least two, at most
three fraction digits — exactly two whenever the amount is a whole
number of hundredths (as in `formatMoney(1234.5) = "¥1,234.50"`);
`formatMoney("x") = "-"`. -/
theorem formatMoney_amended :
    (∀ v : Option Json, (∀ q, v ≠ some (Json.num q)) → formatMoney v = "-") ∧
    (∀ q : ℚ, formatMoney (some (Json.num q)) = "¥" ++ toLocaleStringZhCN2 q ∧
      (fracDigitCount (toLocaleStringZhCN2 q) = 2 ∨
        fracDigitCount (toLocaleStringZhCN2 q) = 3) ∧
      ((q * 100).den = 1 → fracDigitCount (toLocaleStringZhCN2 q) = 2)) ∧
    formatMoney (some (Json.num ((2469 : ℚ) / 2))) = "¥1,234.50" ∧
    formatMoney (some (Json.str "x")) = "-" := by
  refine ⟨?_, ?_, ?_, rfl⟩
  · intro v h
    match v with
    | none => rfl
    | some Json.null => rfl
    | some (Json.bool b) => rfl
    | some (Json.str s) => rfl
    | some (Json.arr xs) => rfl
    | some (Json.obj ms) => rfl
    | some (Json.num q) => exact absurd rfl (h q)
  · intro q
    exact ⟨rfl, (toLocale_frac_digits q).1, (toLocale_frac_digits q).2⟩
  · show "¥" ++ toLocaleStringZhCN2 ((2469 : ℚ) / 2) = "¥1,234.50"
    unfold toLocaleStringZhCN2
    have hfl : ⌊|((2469 : ℚ) / 2)| * 1000 + 1 / 2⌋ = 1234500 := by
      rw [abs_of_pos (by norm_num)]
      norm_num
    rw [hfl, if_neg (by norm_num : ¬((2469 : ℚ) / 2) < 0)]
    decide

theorem formatMoney_amended_witness :
    formatMoney (some (Json.bool true)) = "-" ∧
    fracDigitCount (toLocaleStringZhCN2 ((2469 : ℚ) / 2)) = 2 :=
  ⟨formatMoney_amended.1 (some (Json.bool true)) (fun q h => nomatch h),
    (formatMoney_amended.2.1 ((2469 : ℚ) / 2)).2.2 (by norm_num [Rat.den_eq_one_iff])⟩

/-! ## Helper lemmas: whitespace skipping -/

theorem skipWs_not (c : Char) (t : List Char) (h : isWsChar c = false) :
    skipWs (c :: t) = c :: t := by
  unfold skipWs
  rw [List.dropWhile_cons_of_neg (by simp [h])]

theorem skipWs_all (pre cs : List Char) (h : ∀ c ∈ pre, isWsChar c = true) :
    skipWs (pre ++ cs) = skipWs cs := by
  induction pre with
  | nil => rfl
  | cons c t ih =>
    show skipWs (c :: (t ++ cs)) = _
    unfold skipWs
    rw [List.dropWhile_cons_of_pos (by simp [h c (by simp)])]
    exact ih (fun d hd => h d (by simp [hd]))

theorem indentChars_ws (lvl : ℕ) : ∀ c ∈ indentChars lvl, isWsChar c = true := by
  intro c hc
  rw [List.eq_of_mem_replicate hc]
  decide

theorem parseVal_leading_ws (f : ℕ) (pre cs : List Char)
    (h : ∀ c ∈ pre, isWsChar c = true) :
    parseVal f (pre ++ cs) = parseVal f cs := by
  match f with
  | 0 => rfl
  | f + 1 =>
    simp only [parseVal]
    rw [skipWs_all pre cs h]

/-! ## Helper lemmas: string escape round-trip -/

theorem hexVal_digitChar16 : ∀ v : ℕ, v < 16 → hexVal (digitChar16 v) = some v := by
  decide

theorem parseStringBody_other (c : Char) (t : List Char)
    (hq : c ≠ '"') (hb : c ≠ '\\') (h32 : ¬c.toNat < 32) :
    parseStringBody (c :: t) =
      (parseStringBody t).bind (fun p => some (c :: p.1, p.2)) := by
  rw [parseStringBody.eq_def]
  split
  · rename_i heq
    exact absurd heq (by simp)
  · rename_i heq
    rw [List.cons_eq_cons] at heq
    exact absurd heq.1 hq
  · rename_i heq
    rw [List.cons_eq_cons] at heq
    exact absurd heq.1 hb
  · rename_i heq
    rw [List.cons_eq_cons] at heq
    exact absurd heq.1 hb
  · rename_i c2 t2 heq
    rw [List.cons_eq_cons] at heq
    obtain ⟨rfl, rfl⟩ := heq
    rw [if_neg h32]
    rfl

theorem parseStringBody_escape (l : List Char) (rest : List Char) :
    parseStringBody (l.flatMap escapeChar ++ '"' :: rest) = some (l, rest) := by
  induction l with
  | nil => rfl
  | cons c cs ih =>
    rw [List.flatMap_cons, List.append_assoc]
    by_cases h1 : c = '"'
    · subst h1
      rw [show escapeChar '"' = ['\\', '"'] from by decide]
      have hstep : parseStringBody ('\\' :: '"' :: (cs.flatMap escapeChar ++ '"' :: rest)) =
          (parseStringBody (cs.flatMap escapeChar ++ '"' :: rest)).bind
            (fun p => some ('"' :: p.1, p.2)) := rfl
      rw [List.cons_append, List.cons_append, List.nil_append, hstep, ih]
      rfl
    by_cases h2 : c = '\\'
    · subst h2
      rw [show escapeChar '\\' = ['\\', '\\'] from by decide]
      have hstep : parseStringBody ('\\' :: '\\' :: (cs.flatMap escapeChar ++ '"' :: rest)) =
          (parseStringBody (cs.flatMap escapeChar ++ '"' :: rest)).bind
            (fun p => some ('\\' :: p.1, p.2)) := rfl
      rw [List.cons_append, List.cons_append, List.nil_append, hstep, ih]
      rfl
    by_cases h3 : c = Char.ofNat 8
    · subst h3
      rw [show escapeChar (Char.ofNat 8) = ['\\', 'b'] from by decide]
      have hstep : parseStringBody ('\\' :: 'b' :: (cs.flatMap escapeChar ++ '"' :: rest)) =
          (parseStringBody (cs.flatMap escapeChar ++ '"' :: rest)).bind
            (fun p => some (Char.ofNat 8 :: p.1, p.2)) := rfl
      rw [List.cons_append, List.cons_append, List.nil_append, hstep, ih]
      rfl
    by_cases h4 : c = Char.ofNat 9
    · subst h4
      rw [show escapeChar (Char.ofNat 9) = ['\\', 't'] from by decide]
      have hstep : parseStringBody ('\\' :: 't' :: (cs.flatMap escapeChar ++ '"' :: rest)) =
          (parseStringBody (cs.flatMap escapeChar ++ '"' :: rest)).bind
            (fun p => some (Char.ofNat 9 :: p.1, p.2)) := rfl
      rw [List.cons_append, List.cons_append, List.nil_append, hstep, ih]
      rfl
    by_cases h5 : c = Char.ofNat 10
    · subst h5
      rw [show escapeChar (Char.ofNat 10) = ['\\', 'n'] from by decide]
      have hstep : parseStringBody ('\\' :: 'n' :: (cs.flatMap escapeChar ++ '"' :: rest)) =
          (parseStringBody (cs.flatMap escapeChar ++ '"' :: rest)).bind
            (fun p => some (Char.ofNat 10 :: p.1, p.2)) := rfl
      rw [List.cons_append, List.cons_append, List.nil_append, hstep, ih]
      rfl
    by_cases h6 : c = Char.ofNat 12
    · subst h6
      rw [show escapeChar (Char.ofNat 12) = ['\\', 'f'] from by decide]
      have hstep : parseStringBody ('\\' :: 'f' :: (cs.flatMap escapeChar ++ '"' :: rest)) =
          (parseStringBody (cs.flatMap escapeChar ++ '"' :: rest)).bind
            (fun p => some (Char.ofNat 12 :: p.1, p.2)) := rfl
      rw [List.cons_append, List.cons_append, List.nil_append, hstep, ih]
      rfl
    by_cases h7 : c = Char.ofNat 13
    · subst h7
      rw [show escapeChar (Char.ofNat 13) = ['\\', 'r'] from by decide]
      have hstep : parseStringBody ('\\' :: 'r' :: (cs.flatMap escapeChar ++ '"' :: rest)) =
          (parseStringBody (cs.flatMap escapeChar ++ '"' :: rest)).bind
            (fun p => some (Char.ofNat 13 :: p.1, p.2)) := rfl
      rw [List.cons_append, List.cons_append, List.nil_append, hstep, ih]
      rfl
    by_cases h8 : c.toNat < 32
    · have hesc : escapeChar c =
          ['\\', 'u', '0', '0', digitChar16 (c.toNat / 16), digitChar16 (c.toNat % 16)] := by
        unfold escapeChar
        rw [if_neg h1, if_neg h2, if_neg h3, if_neg h4, if_neg h5, if_neg h6, if_neg h7,
          if_pos h8]
      rw [hesc]
      have hstep : parseStringBody ('\\' :: 'u' :: '0' :: '0' ::
          digitChar16 (c.toNat / 16) :: digitChar16 (c.toNat % 16) ::
          (cs.flatMap escapeChar ++ '"' :: rest)) = (do
            let va ← hexVal '0'
            let vb ← hexVal '0'
            let vc ← hexVal (digitChar16 (c.toNat / 16))
            let vd ← hexVal (digitChar16 (c.toNat % 16))
            let p ← parseStringBody (cs.flatMap escapeChar ++ '"' :: rest)
            some (Char.ofNat (va * 4096 + vb * 256 + vc * 16 + vd) :: p.1, p.2)) := rfl
      simp only [List.cons_append, List.nil_append]
      rw [hstep]
      rw [show hexVal '0' = some 0 from by decide,
        hexVal_digitChar16 (c.toNat / 16) (by omega),
        hexVal_digitChar16 (c.toNat % 16) (by omega), ih]
      show some (Char.ofNat (0 * 4096 + 0 * 256 + c.toNat / 16 * 16 + c.toNat % 16) :: cs,
        rest) = _
      rw [show 0 * 4096 + 0 * 256 + c.toNat / 16 * 16 + c.toNat % 16 = c.toNat from by omega,
        Char.ofNat_toNat]
    · have hesc : escapeChar c = [c] := by
        unfold escapeChar
        rw [if_neg h1, if_neg h2, if_neg h3, if_neg h4, if_neg h5, if_neg h6, if_neg h7,
          if_neg h8]
      rw [hesc, List.cons_append, List.nil_append,
        parseStringBody_other c _ h1 h2 h8, ih]
      rfl

/-! ## Helper lemmas: number round-trip -/

theorem factorMult_strip (p : ℕ) (hp : 1 < p) :
    ∀ n : ℕ, 0 < n → n = p ^ factorMult p n * stripFactor p n := by
  intro n
  induction n using Nat.strong_induction_on with
  | _ n ih =>
    intro hn
    rw [factorMult_eq, stripFactor_eq]
    by_cases h : 1 < p ∧ 0 < n ∧ p ∣ n
    · rw [if_pos h, if_pos h]
      have hdiv : n / p < n := Nat.div_lt_self h.2.1 h.1
      have hdp : 0 < n / p := Nat.div_pos (Nat.le_of_dvd hn h.2.2) (by omega)
      have ih2 := ih (n / p) hdiv hdp
      rw [pow_succ]
      calc n = p * (n / p) := (Nat.mul_div_cancel' h.2.2).symm
      _ = p * (p ^ factorMult p (n / p) * stripFactor p (n / p)) := by rw [← ih2]
      _ = p ^ factorMult p (n / p) * p * stripFactor p (n / p) := by ring
    · rw [if_neg h, if_neg h]
      simp

theorem stripFactor_pos (p : ℕ) : ∀ n : ℕ, 0 < n → 0 < stripFactor p n := by
  intro n
  induction n using Nat.strong_induction_on with
  | _ n ih =>
    intro hn
    rw [stripFactor_eq]
    by_cases h : 1 < p ∧ 0 < n ∧ p ∣ n
    · rw [if_pos h]
      have hdiv : n / p < n := Nat.div_lt_self h.2.1 h.1
      exact ih (n / p) hdiv (Nat.div_pos (Nat.le_of_dvd hn h.2.2) (by omega))
    · rw [if_neg h]
      exact hn

theorem den_dvd_pow (q : ℚ) (h : FiniteDecimal q) : q.den ∣ 10 ^ decExp q := by
  have hden : 0 < q.den := q.den_pos
  have h1 : q.den = 2 ^ factorMult 2 q.den * stripFactor 2 q.den :=
    factorMult_strip 2 (by omega) q.den hden
  have hs2pos : 0 < stripFactor 2 q.den := stripFactor_pos 2 q.den hden
  have h2 : stripFactor 2 q.den =
      5 ^ factorMult 5 (stripFactor 2 q.den) * stripFactor 5 (stripFactor 2 q.den) :=
    factorMult_strip 5 (by omega) _ hs2pos
  unfold FiniteDecimal at h
  rw [h, mul_one] at h2
  have hsplit : (10 : ℕ) ^ decExp q = 2 ^ decExp q * 5 ^ decExp q := by
    rw [← Nat.mul_pow]
  rw [hsplit, h1, h2]
  exact Nat.mul_dvd_mul
    (pow_dvd_pow 2 (le_max_left _ _))
    (pow_dvd_pow 5 (le_max_right _ _))

theorem scaledNum_cast (q : ℚ) (h : FiniteDecimal q) :
    (scaledNum q : ℚ) = |q| * 10 ^ decExp q := by
  have hden0 : ((q.den : ℚ)) ≠ 0 := by
    exact_mod_cast q.den_pos.ne'
  have hdvd : (q.den : ℤ) ∣ ((10 ^ decExp q : ℕ) : ℤ) :=
    Int.natCast_dvd_natCast.mpr (den_dvd_pow q h)
  unfold scaledNum
  set k : ℤ := ((10 ^ decExp q : ℕ) : ℤ) / (q.den : ℤ) with hk
  have hmul : (q.den : ℤ) * k = ((10 ^ decExp q : ℕ) : ℤ) := Int.mul_ediv_cancel' hdvd
  have hZ : q.num * k * (q.den : ℤ) = q.num * ((10 ^ decExp q : ℕ) : ℤ) := by
    rw [mul_assoc, mul_comm k (q.den : ℤ), hmul]
  have hnum : ((q.num : ℚ)) = q * (q.den : ℚ) := by
    have hdq := Rat.num_div_den q
    rw [div_eq_iff hden0] at hdq
    exact hdq
  have hcast : ((q.num * k : ℤ) : ℚ) * (q.den : ℚ) =
      (q.num : ℚ) * ((10 : ℚ) ^ decExp q) := by
    exact_mod_cast hZ
  have hkq : ((q.num * k : ℤ) : ℚ) = q * 10 ^ decExp q := by
    have h2 : ((q.num * k : ℤ) : ℚ) = (q.num : ℚ) * (10 : ℚ) ^ decExp q / (q.den : ℚ) := by
      rw [eq_div_iff hden0]
      exact hcast
    rw [h2]
    field_simp
    rw [hnum]
    ring
  have habs : (((q.num * k).natAbs : ℕ) : ℚ) = |((q.num * k : ℤ) : ℚ)| := by
    push_cast [Int.cast_natAbs]
    rfl
  rw [habs, hkq, abs_mul, abs_of_pos (show (0 : ℚ) < 10 ^ decExp q from by positivity)]

theorem parseFrac_safe (rest : List Char) (hrest : SafeFollower rest) :
    parseFrac rest = some (0, rest) := by
  match rest, hrest with
  | [], _ => rfl
  | c :: t, h =>
    rw [parseFrac.eq_def]
    split
    · rename_i r heq
      rw [List.cons_eq_cons] at heq
      exact absurd heq.1 h.2.1
    · rfl

theorem parseExp_safe (rest : List Char) (hrest : SafeFollower rest) :
    parseExp rest = some (1, rest) := by
  match rest, hrest with
  | [], _ => rfl
  | c :: t, h =>
    rw [parseExp.eq_def]
    split
    · rename_i r heq
      rw [List.cons_eq_cons] at heq
      exact absurd heq.1 h.2.2.1
    · rename_i r heq
      rw [List.cons_eq_cons] at heq
      exact absurd heq.1 h.2.2.2
    · rfl

theorem parseNum_not_minus (cs : List Char) (h : ∀ t, cs ≠ '-' :: t) :
    parseNum cs = parseNumPos cs := by
  match cs with
  | [] => rfl
  | c :: t =>
    rw [parseNum.eq_def]
    split
    · rename_i r heq
      exact absurd heq (h r)
    · rfl

theorem safeFollower_head (rest : List Char) (hrest : SafeFollower rest) :
    ∀ c t, rest = c :: t → Char.isDigit c = false := by
  intro c t heq
  subst heq
  exact hrest.1

theorem parseNumPos_int (n : ℕ) (rest : List Char) (hrest : SafeFollower rest) :
    parseNumPos (natToDigits n ++ rest) = some ((n : ℚ), rest) := by
  unfold parseNumPos
  rw [takeWhile_append_stop (natToDigits n) rest (natToDigits_all_digits n)
      (safeFollower_head rest hrest),
    dropWhile_append_stop (natToDigits n) rest (natToDigits_all_digits n)
      (safeFollower_head rest hrest),
    if_neg (natToDigits_ne_nil n), parseFrac_safe rest hrest]
  show (parseExp rest).bind _ = _
  rw [parseExp_safe rest hrest]
  show some ((((digitsToNat (natToDigits n) : ℚ) + 0) * 1 : ℚ), rest) = _
  rw [digitsToNat_natToDigits]
  norm_num

theorem parseNumPos_fraction (ip e fp : ℕ) (he : 0 < e) (hfp : fp < 10 ^ e)
    (rest : List Char) (hrest : SafeFollower rest) :
    parseNumPos (natToDigits ip ++ '.' :: (padDigits e fp ++ rest)) =
      some ((ip : ℚ) + (fp : ℚ) / 10 ^ e, rest) := by
  unfold parseNumPos
  rw [takeWhile_append_stop (natToDigits ip) ('.' :: (padDigits e fp ++ rest))
      (natToDigits_all_digits ip) (fun c t heq => by cases heq; decide),
    dropWhile_append_stop (natToDigits ip) ('.' :: (padDigits e fp ++ rest))
      (natToDigits_all_digits ip) (fun c t heq => by cases heq; decide),
    if_neg (natToDigits_ne_nil ip)]
  have hfrac : parseFrac ('.' :: (padDigits e fp ++ rest)) =
      some ((fp : ℚ) / 10 ^ e, rest) := by
    show (if List.takeWhile Char.isDigit (padDigits e fp ++ rest) = [] then none
      else some
        ((digitsToNat (List.takeWhile Char.isDigit (padDigits e fp ++ rest)) : ℚ) /
          10 ^ (List.takeWhile Char.isDigit (padDigits e fp ++ rest)).length,
          List.dropWhile Char.isDigit (padDigits e fp ++ rest))) =
      some ((fp : ℚ) / 10 ^ e, rest)
    rw [takeWhile_append_stop (padDigits e fp) rest (padDigits_all_digits e fp)
        (safeFollower_head rest hrest),
      dropWhile_append_stop (padDigits e fp) rest (padDigits_all_digits e fp)
        (safeFollower_head rest hrest)]
    have hne : padDigits e fp ≠ [] := by
      unfold padDigits
      intro hcontra
      rw [List.append_eq_nil] at hcontra
      exact natToDigits_ne_nil fp hcontra.2
    rw [if_neg hne, digitsToNat_padDigits, padDigits_length e fp he hfp]
  rw [hfrac]
  show (parseExp rest).bind _ = _
  rw [parseExp_safe rest hrest]
  show some ((((digitsToNat (natToDigits ip) : ℚ) + (fp : ℚ) / 10 ^ e) * 1 : ℚ), rest) = _
  rw [digitsToNat_natToDigits]
  norm_num

theorem natToDigits_head (n : ℕ) : ∃ c t, natToDigits n = c :: t ∧ c.isDigit = true := by
  cases hds : natToDigits n with
  | nil => exact absurd hds (natToDigits_ne_nil n)
  | cons c t =>
    refine ⟨c, t, rfl, natToDigits_all_digits n c ?_⟩
    rw [hds]
    exact List.mem_cons_self c t

theorem isDigit_ne (c : Char) (h : c.isDigit = true) (d : Char) (hd : d.isDigit = false) :
    c ≠ d := by
  intro heq
  subst heq
  rw [h] at hd
  cases hd

theorem natCast_div_add_mod (n m : ℕ) (hm : ((m : ℚ)) ≠ 0) :
    ((n / m : ℕ) : ℚ) + ((n % m : ℕ) : ℚ) / (m : ℚ) = (n : ℚ) / m := by
  rw [eq_div_iff hm, add_mul, div_mul_cancel₀ _ hm]
  have hnat : n / m * m + n % m = n := by
    rw [mul_comm]
    exact Nat.div_add_mod n m
  exact_mod_cast hnat

theorem parseNumPos_numChars_body (q : ℚ) (h : FiniteDecimal q) (rest : List Char)
    (hrest : SafeFollower rest) :
    parseNumPos ((if decExp q = 0 then natToDigits (scaledNum q)
      else natToDigits (scaledNum q / 10 ^ decExp q) ++
        '.' :: padDigits (decExp q) (scaledNum q % 10 ^ decExp q)) ++ rest) =
      some (|q|, rest) := by
  have hscaled := scaledNum_cast q h
  by_cases he : decExp q = 0
  · rw [if_pos he, parseNumPos_int _ rest hrest]
    rw [hscaled, he]
    norm_num
  · rw [if_neg he]
    rw [List.append_assoc, List.cons_append]
    have hfp : scaledNum q % 10 ^ decExp q < 10 ^ decExp q :=
      Nat.mod_lt _ (Nat.pos_pow_of_pos _ (by omega))
    rw [parseNumPos_fraction (scaledNum q / 10 ^ decExp q) (decExp q)
      (scaledNum q % 10 ^ decExp q) (by omega) hfp rest hrest]
    congr 1
    rw [Prod.mk.injEq]
    refine ⟨?_, rfl⟩
    have h10 : (((10 : ℕ) ^ decExp q : ℕ) : ℚ) ≠ 0 := by
      push_cast
      positivity
    have hdm := natCast_div_add_mod (scaledNum q) (10 ^ decExp q) h10
    push_cast at hdm ⊢
    rw [hdm, hscaled]
    field_simp

theorem parseNum_numChars (q : ℚ) (h : FiniteDecimal q) (rest : List Char)
    (hrest : SafeFollower rest) :
    parseNum (numChars q ++ rest) = some (q, rest) := by
  unfold numChars
  dsimp only
  by_cases hneg : q.num < 0
  · rw [if_pos hneg]
    have hq0 : q < 0 := by
      by_contra hcon
      rw [not_lt] at hcon
      exact absurd (Rat.num_nonneg.mpr hcon) (by omega)
    rw [List.append_assoc, List.cons_append, List.nil_append]
    rw [show ∀ X, parseNum ('-' :: X) =
      (parseNumPos X).map (fun p => (-p.1, p.2)) from fun X => rfl]
    rw [parseNumPos_numChars_body q h rest hrest]
    show some (-|q|, rest) = some (q, rest)
    rw [abs_of_neg hq0, neg_neg]
  · rw [if_neg hneg, List.nil_append]
    have hhead : ∃ c t2, (if decExp q = 0 then natToDigits (scaledNum q)
        else natToDigits (scaledNum q / 10 ^ decExp q) ++
          '.' :: padDigits (decExp q) (scaledNum q % 10 ^ decExp q)) = c :: t2 ∧
        c.isDigit = true := by
      by_cases he : decExp q = 0
      · rw [if_pos he]
        exact natToDigits_head _
      · rw [if_neg he]
        obtain ⟨c, t2, hds, hdig⟩ := natToDigits_head (scaledNum q / 10 ^ decExp q)
        refine ⟨c, t2 ++ '.' :: padDigits (decExp q) (scaledNum q % 10 ^ decExp q),
          ?_, hdig⟩
        rw [hds]
        rfl
    obtain ⟨c, t2, hbody, hdig⟩ := hhead
    have hnot : ∀ t, ((if decExp q = 0 then natToDigits (scaledNum q)
        else natToDigits (scaledNum q / 10 ^ decExp q) ++
          '.' :: padDigits (decExp q) (scaledNum q % 10 ^ decExp q)) ++ rest) ≠
        '-' :: t := by
      intro t heq
      rw [hbody, List.cons_append, List.cons_eq_cons] at heq
      exact isDigit_ne c hdig '-' (by decide) heq.1
    rw [parseNum_not_minus _ hnot, parseNumPos_numChars_body q h rest hrest,
      abs_of_nonneg (Rat.num_nonneg.mp (by omega))]

/-! ## Helper lemmas: structural round-trip -/

theorem serializableItems_mem (xs : List Json) (h : serializableItems xs = true) :
    ∀ x ∈ xs, serializable x = true := by
  induction xs with
  | nil =>
    intro x hx
    cases hx
  | cons y ys ih =>
    rw [serializableItems] at h
    rw [Bool.and_eq_true] at h
    intro x hx
    rcases List.mem_cons.mp hx with rfl | hx2
    · exact h.1
    · exact ih h.2 x hx2

theorem serializableMembers_mem (ms : List (String × Json))
    (h : serializableMembers ms = true) :
    ∀ m ∈ ms, serializable m.2 = true := by
  induction ms with
  | nil =>
    intro m hm
    cases hm
  | cons y ys ih =>
    rw [serializableMembers] at h
    rw [Bool.and_eq_true] at h
    intro m hm
    rcases List.mem_cons.mp hm with rfl | hm2
    · exact h.1
    · exact ih h.2 m hm2

theorem digit_not_special (c : Char) (h : c.isDigit = true) :
    isWsChar c = false ∧ c ≠ ']' ∧ c ≠ '\x7d' := by
  have h1 : c ≠ ' ' := isDigit_ne c h ' ' (by decide)
  have h2 : c ≠ '\n' := isDigit_ne c h '\n' (by decide)
  have h3 : c ≠ '\t' := isDigit_ne c h '\t' (by decide)
  have h4 : c ≠ '\r' := isDigit_ne c h '\r' (by decide)
  refine ⟨?_, isDigit_ne c h ']' (by decide), isDigit_ne c h '\x7d' (by decide)⟩
  unfold isWsChar
  simp [h1, h2, h3, h4]

theorem numChars_head (q : ℚ) :
    ∃ c t, numChars q = c :: t ∧ (c.isDigit = true ∨ c = '-') := by
  unfold numChars
  dsimp only
  by_cases hneg : q.num < 0
  · rw [if_pos hneg]
    exact ⟨'-', _, rfl, Or.inr rfl⟩
  · rw [if_neg hneg, List.nil_append]
    by_cases he : decExp q = 0
    · rw [if_pos he]
      obtain ⟨c, t, hds, hdig⟩ := natToDigits_head (scaledNum q)
      exact ⟨c, t, hds, Or.inl hdig⟩
    · rw [if_neg he]
      obtain ⟨c, t, hds, hdig⟩ := natToDigits_head (scaledNum q / 10 ^ decExp q)
      refine ⟨c, t ++ '.' :: padDigits (decExp q) (scaledNum q % 10 ^ decExp q), ?_,
        Or.inl hdig⟩
      rw [hds]
      rfl

theorem numStart_not_special (c : Char) (h : c.isDigit = true ∨ c = '-') :
    isWsChar c = false ∧ c ≠ ']' ∧ c ≠ '\x7d' := by
  rcases h with h | rfl
  · exact digit_not_special c h
  · exact ⟨by decide, by decide, by decide⟩

theorem stringifyPretty_head (j : Json) (lvl : ℕ) :
    ∃ c t, stringifyPretty lvl j = c :: t ∧ isWsChar c = false ∧ c ≠ ']' ∧ c ≠ '\x7d' := by
  match j with
  | .null => exact ⟨'n', _, rfl, by decide, by decide, by decide⟩
  | .bool true => exact ⟨'t', _, rfl, by decide, by decide, by decide⟩
  | .bool false => exact ⟨'f', _, rfl, by decide, by decide, by decide⟩
  | .str s => exact ⟨'"', _, rfl, by decide, by decide, by decide⟩
  | .arr [] => exact ⟨'[', _, rfl, by decide, by decide, by decide⟩
  | .arr (x :: xs) => exact ⟨'[', _, rfl, by decide, by decide, by decide⟩
  | .obj [] => exact ⟨'\x7b', _, rfl, by decide, by decide, by decide⟩
  | .obj (m :: ms) => exact ⟨'\x7b', _, rfl, by decide, by decide, by decide⟩
  | .num q =>
    obtain ⟨c, t, hds, hstart⟩ := numChars_head q
    obtain ⟨w1, w2, w3⟩ := numStart_not_special c hstart
    exact ⟨c, t, hds, w1, w2, w3⟩

theorem parseVal_null (f : ℕ) (rest : List Char) :
    parseVal (f + 1) ("null".data ++ rest) = some (.null, rest) := rfl

theorem parseVal_true (f : ℕ) (rest : List Char) :
    parseVal (f + 1) ("true".data ++ rest) = some (.bool true, rest) := rfl

theorem parseVal_false (f : ℕ) (rest : List Char) :
    parseVal (f + 1) ("false".data ++ rest) = some (.bool false, rest) := rfl

theorem parseVal_str (f : ℕ) (s : String) (rest : List Char) :
    parseVal (f + 1) (quoteString s ++ rest) = some (.str s, rest) := by
  have hstep : parseVal (f + 1) (quoteString s ++ rest) =
      (parseStringBody ((s.data.flatMap escapeChar ++ ['"']) ++ rest)).map
        (fun p => (.str ⟨p.1⟩, p.2)) := rfl
  rw [hstep, List.append_assoc]
  show (parseStringBody (s.data.flatMap escapeChar ++ '"' :: rest)).map _ = _
  rw [parseStringBody_escape]
  rfl

theorem parseVal_arr_nil (f : ℕ) (rest : List Char) :
    parseVal (f + 1) ('[' :: ']' :: rest) = some (.arr [], rest) := rfl

theorem parseVal_obj_nil (f : ℕ) (rest : List Char) :
    parseVal (f + 1) ('\x7b' :: '\x7d' :: rest) = some (.obj [], rest) := rfl

theorem numStart_ne_lit (c : Char) (h : c.isDigit = true ∨ c = '-') (d : Char)
    (hd : d.isDigit = false) (hd2 : d ≠ '-') : c ≠ d := by
  rcases h with h | rfl
  · exact isDigit_ne c h d hd
  · exact fun heq => hd2 heq.symm

theorem parseVal_num (f : ℕ) (q : ℚ) (hfd : FiniteDecimal q) (rest : List Char)
    (hrest : SafeFollower rest) :
    parseVal (f + 1) (numChars q ++ rest) = some (.num q, rest) := by
  obtain ⟨c, t, hds, hstart⟩ := numChars_head q
  have hws : isWsChar c = false := (numStart_not_special c hstart).1
  rw [hds, List.cons_append, parseVal.eq_def]
  dsimp only
  rw [skipWs_not c (t ++ rest) hws]
  split
  · rename_i heq
    rw [List.cons_eq_cons] at heq
    exact absurd heq.1 (numStart_ne_lit c hstart _ (by decide) (by decide))
  · rename_i heq
    rw [List.cons_eq_cons] at heq
    exact absurd heq.1 (numStart_ne_lit c hstart _ (by decide) (by decide))
  · rename_i heq
    rw [List.cons_eq_cons] at heq
    exact absurd heq.1 (numStart_ne_lit c hstart _ (by decide) (by decide))
  · rename_i heq
    rw [List.cons_eq_cons] at heq
    exact absurd heq.1 (numStart_ne_lit c hstart _ (by decide) (by decide))
  · rename_i heq
    rw [List.cons_eq_cons] at heq
    exact absurd heq.1 (numStart_ne_lit c hstart _ (by decide) (by decide))
  · rename_i heq
    rw [List.cons_eq_cons] at heq
    exact absurd heq.1 (numStart_ne_lit c hstart _ (by decide) (by decide))
  · rw [← List.cons_append, ← hds, parseNum_numChars q hfd rest hrest]
    rfl

theorem parseItems_step (f : ℕ) (cs : List Char) :
    parseItems (f + 1) cs = (parseVal f cs).bind (fun p =>
      match skipWs p.2 with
      | ',' :: r2 => (parseItems f r2).map (fun p2 => (p.1 :: p2.1, p2.2))
      | ']' :: r2 => some ([p.1], r2)
      | _ => none) := rfl

theorem parseVal_arr_step (f : ℕ) (X : List Char) :
    parseVal (f + 1) ('[' :: X) =
      (match skipWs X with
       | ']' :: rest2 => some (.arr [], rest2)
       | _ => (parseItems f X).map (fun p => (.arr p.1, p.2))) := rfl

theorem parseVal_obj_step (f : ℕ) (X : List Char) :
    parseVal (f + 1) ('\x7b' :: X) =
      (match skipWs X with
       | '\x7d' :: rest2 => some (.obj [], rest2)
       | _ => (parseMembers f X).map (fun p => (.obj p.1, p.2))) := rfl

theorem parseMembers_step (f : ℕ) (cs : List Char) :
    parseMembers (f + 1) cs =
      (match skipWs cs with
       | '"' :: rest => (parseStringBody rest).bind (fun pk =>
          match skipWs pk.2 with
          | ':' :: r2 => (parseVal f r2).bind (fun pv =>
              match skipWs pv.2 with
              | ',' :: r4 =>
                (parseMembers f r4).map (fun pm => ((⟨pk.1⟩, pv.1) :: pm.1, pm.2))
              | '\x7d' :: r4 => some ([(⟨pk.1⟩, pv.1)], r4)
              | _ => none)
          | _ => none)
       | _ => none) := rfl

theorem nl_indent_ws (lvl : ℕ) : ∀ c ∈ ('\n' :: indentChars lvl), isWsChar c = true := by
  intro c hc
  rcases List.mem_cons.mp hc with rfl | hc
  · decide
  · exact indentChars_ws lvl c hc

theorem safeFollower_cons (c : Char) (t : List Char) (h1 : c.isDigit = false)
    (h2 : c ≠ '.') (h3 : c ≠ 'e') (h4 : c ≠ 'E') : SafeFollower (c :: t) := by
  unfold SafeFollower
  exact ⟨h1, h2, h3, h4⟩

theorem parseItems_print (lvl : ℕ) (xs : List Json) :
    ∀ (H : ∀ x ∈ xs, ∀ (lvl2 f2 : ℕ) (rest2 : List Char), fuelV x ≤ f2 →
        SafeFollower rest2 →
        parseVal f2 (stringifyPretty lvl2 x ++ rest2) = some (x, rest2))
      (f : ℕ) (rest : List Char), xs ≠ [] → fuelItemsF xs ≤ f →
      parseItems f ('\n' :: (indentChars (lvl + 1) ++
        (stringifyPrettyItems lvl xs ++ '\n' :: (indentChars lvl ++ ']' :: rest)))) =
        some (xs, rest) := by
  induction xs with
  | nil =>
    intro H f rest hne hf
    exact absurd rfl hne
  | cons x tail ih =>
    intro H f rest hne hf
    rw [fuelItemsF] at hf
    obtain ⟨f, rfl⟩ : ∃ f2, f = f2 + 1 := ⟨f - 1, by omega⟩
    rw [parseItems_step]
    cases tail with
    | nil =>
      rw [show stringifyPrettyItems lvl [x] = stringifyPretty (lvl + 1) x from by
        rw [stringifyPrettyItems]]
      rw [← List.cons_append,
        parseVal_leading_ws f ('\n' :: indentChars (lvl + 1)) _ (nl_indent_ws (lvl + 1)),
        H x (List.mem_cons_self x []) (lvl + 1) f
          ('\n' :: (indentChars lvl ++ ']' :: rest)) (by omega)
          (safeFollower_cons '\n' _ (by decide) (by decide) (by decide) (by decide))]
      have hsk : skipWs ('\n' :: (indentChars lvl ++ ']' :: rest)) = ']' :: rest := by
        rw [(List.cons_append '\n' (indentChars lvl) (']' :: rest)).symm,
          skipWs_all _ _ (nl_indent_ws lvl), skipWs_not ']' rest (by decide)]
      simp only [Option.bind]
      rw [hsk]
      rfl
    | cons w tail2 =>
      rw [show stringifyPrettyItems lvl (x :: w :: tail2) =
          stringifyPretty (lvl + 1) x ++ ',' :: '\n' ::
            (indentChars (lvl + 1) ++ stringifyPrettyItems lvl (w :: tail2)) from by
        rw [stringifyPrettyItems]]
      rw [List.append_assoc, List.cons_append, List.cons_append, List.append_assoc]
      rw [← List.cons_append,
        parseVal_leading_ws f ('\n' :: indentChars (lvl + 1)) _ (nl_indent_ws (lvl + 1))]
      rw [H x (List.mem_cons_self x (w :: tail2)) (lvl + 1) f
          (',' :: '\n' :: (indentChars (lvl + 1) ++
            (stringifyPrettyItems lvl (w :: tail2) ++
              '\n' :: (indentChars lvl ++ ']' :: rest)))) (by omega)
          (safeFollower_cons ',' _ (by decide) (by decide) (by decide) (by decide))]
      simp only [Option.bind]
      rw [skipWs_not ',' _ (by decide)]
      show (parseItems f ('\n' :: (indentChars (lvl + 1) ++
          (stringifyPrettyItems lvl (w :: tail2) ++
            '\n' :: (indentChars lvl ++ ']' :: rest))))).map
          (fun p2 => (x :: p2.1, p2.2)) = some (x :: w :: tail2, rest)
      rw [ih (fun y hy => H y (List.mem_cons_of_mem x hy)) f rest
        (List.cons_ne_nil w tail2) (by omega)]
      rfl

theorem parseMembers_leading_ws (f : ℕ) (pre cs : List Char)
    (h : ∀ c ∈ pre, isWsChar c = true) :
    parseMembers f (pre ++ cs) = parseMembers f cs := by
  match f with
  | 0 => rfl
  | f + 1 =>
    rw [parseMembers_step, parseMembers_step, skipWs_all pre cs h]

theorem parseMembers_quote (f : ℕ) (k : String) (X : List Char) :
    parseMembers (f + 1) (quoteString k ++ X) =
      (parseStringBody ((k.data.flatMap escapeChar ++ ['"']) ++ X)).bind (fun pk =>
        match skipWs pk.2 with
        | ':' :: r2 => (parseVal f r2).bind (fun pv =>
            match skipWs pv.2 with
            | ',' :: r4 =>
              (parseMembers f r4).map (fun pm => ((⟨pk.1⟩, pv.1) :: pm.1, pm.2))
            | '\x7d' :: r4 => some ([(⟨pk.1⟩, pv.1)], r4)
            | _ => none)
        | _ => none) := rfl

theorem parseMembers_print (lvl : ℕ) (ms : List (String × Json)) :
    ∀ (H : ∀ (k : String) (v : Json), (k, v) ∈ ms →
        ∀ (lvl2 f2 : ℕ) (rest2 : List Char), fuelV v ≤ f2 → SafeFollower rest2 →
        parseVal f2 (stringifyPretty lvl2 v ++ rest2) = some (v, rest2))
      (f : ℕ) (rest : List Char), ms ≠ [] → fuelMembersF ms ≤ f →
      parseMembers f ('\n' :: (indentChars (lvl + 1) ++
        (stringifyPrettyMembers lvl ms ++ '\n' :: (indentChars lvl ++ '\x7d' :: rest)))) =
        some (ms, rest) := by
  induction ms with
  | nil =>
    intro H f rest hne hf
    exact absurd rfl hne
  | cons m tail ih =>
    obtain ⟨k, v⟩ := m
    intro H f rest hne hf
    rw [fuelMembersF] at hf
    obtain ⟨f, rfl⟩ : ∃ f2, f = f2 + 1 := ⟨f - 1, by omega⟩
    cases tail with
    | nil =>
      rw [show stringifyPrettyMembers lvl [(k, v)] =
          quoteString k ++ ':' :: ' ' :: stringifyPretty (lvl + 1) v from by
        rw [stringifyPrettyMembers]]
      simp only [List.append_assoc, List.cons_append]
      rw [show ('\n' :: (indentChars (lvl + 1) ++ (quoteString k ++
            ':' :: ' ' :: (stringifyPretty (lvl + 1) v ++
              '\n' :: (indentChars lvl ++ '\x7d' :: rest)))) : List Char) =
          ('\n' :: indentChars (lvl + 1)) ++ (quoteString k ++
            ':' :: ' ' :: (stringifyPretty (lvl + 1) v ++
              '\n' :: (indentChars lvl ++ '\x7d' :: rest))) from
        (List.cons_append _ _ _).symm]
      rw [parseMembers_leading_ws (f + 1) ('\n' :: indentChars (lvl + 1)) _
        (nl_indent_ws (lvl + 1))]
      rw [parseMembers_quote]
      rw [List.append_assoc, List.cons_append, List.nil_append]
      rw [parseStringBody_escape]
      simp only [Option.bind]
      rw [skipWs_not ':' _ (by decide)]
      show (parseVal f (' ' :: (stringifyPretty (lvl + 1) v ++
          '\n' :: (indentChars lvl ++ '\x7d' :: rest)))).bind
          (fun pv => match skipWs pv.2 with
            | ',' :: r4 => (parseMembers f r4).map (fun pm => ((k, pv.1) :: pm.1, pm.2))
            | '\x7d' :: r4 => some ([(k, pv.1)], r4)
            | _ => none) = some ([(k, v)], rest)
      rw [show (' ' :: (stringifyPretty (lvl + 1) v ++
            '\n' :: (indentChars lvl ++ '\x7d' :: rest)) : List Char) =
          [' '] ++ (stringifyPretty (lvl + 1) v ++
            '\n' :: (indentChars lvl ++ '\x7d' :: rest)) from rfl]
      rw [parseVal_leading_ws f [' '] _ (by intro c hc; obtain rfl := List.mem_singleton.mp hc; decide)]
      rw [H k v (List.mem_cons_self (k, v) []) (lvl + 1) f
        ('\n' :: (indentChars lvl ++ '\x7d' :: rest)) (by omega)
        (safeFollower_cons '\n' _ (by decide) (by decide) (by decide) (by decide))]
      have hsk : skipWs ('\n' :: (indentChars lvl ++ '\x7d' :: rest)) = '\x7d' :: rest := by
        rw [(List.cons_append '\n' (indentChars lvl) ('\x7d' :: rest)).symm,
          skipWs_all _ _ (nl_indent_ws lvl), skipWs_not '\x7d' rest (by decide)]
      simp only [Option.bind]
      rw [hsk]
      rfl
    | cons m2 tail2 =>
      rw [show stringifyPrettyMembers lvl ((k, v) :: m2 :: tail2) =
          quoteString k ++ ':' :: ' ' :: stringifyPretty (lvl + 1) v ++ ',' :: '\n' ::
            (indentChars (lvl + 1) ++ stringifyPrettyMembers lvl (m2 :: tail2)) from by
        rw [stringifyPrettyMembers]]
      simp only [List.append_assoc, List.cons_append]
      rw [show ('\n' :: (indentChars (lvl + 1) ++ (quoteString k ++
            ':' :: ' ' :: (stringifyPretty (lvl + 1) v ++ ',' :: '\n' ::
              (indentChars (lvl + 1) ++ (stringifyPrettyMembers lvl (m2 :: tail2) ++
                '\n' :: (indentChars lvl ++ '\x7d' :: rest)))))) : List Char) =
          ('\n' :: indentChars (lvl + 1)) ++ (quoteString k ++
            ':' :: ' ' :: (stringifyPretty (lvl + 1) v ++ ',' :: '\n' ::
              (indentChars (lvl + 1) ++ (stringifyPrettyMembers lvl (m2 :: tail2) ++
                '\n' :: (indentChars lvl ++ '\x7d' :: rest))))) from
        (List.cons_append _ _ _).symm]
      rw [parseMembers_leading_ws (f + 1) ('\n' :: indentChars (lvl + 1)) _
        (nl_indent_ws (lvl + 1))]
      rw [parseMembers_quote]
      rw [List.append_assoc, List.cons_append, List.nil_append]
      rw [parseStringBody_escape]
      simp only [Option.bind]
      rw [skipWs_not ':' _ (by decide)]
      show (parseVal f (' ' :: (stringifyPretty (lvl + 1) v ++ ',' :: '\n' ::
          (indentChars (lvl + 1) ++ (stringifyPrettyMembers lvl (m2 :: tail2) ++
            '\n' :: (indentChars lvl ++ '\x7d' :: rest)))))).bind
          (fun pv => match skipWs pv.2 with
            | ',' :: r4 => (parseMembers f r4).map (fun pm => ((k, pv.1) :: pm.1, pm.2))
            | '\x7d' :: r4 => some ([(k, pv.1)], r4)
            | _ => none) = some ((k, v) :: m2 :: tail2, rest)
      rw [show (' ' :: (stringifyPretty (lvl + 1) v ++ ',' :: '\n' ::
            (indentChars (lvl + 1) ++ (stringifyPrettyMembers lvl (m2 :: tail2) ++
              '\n' :: (indentChars lvl ++ '\x7d' :: rest)))) : List Char) =
          [' '] ++ (stringifyPretty (lvl + 1) v ++ ',' :: '\n' ::
            (indentChars (lvl + 1) ++ (stringifyPrettyMembers lvl (m2 :: tail2) ++
              '\n' :: (indentChars lvl ++ '\x7d' :: rest)))) from rfl]
      rw [parseVal_leading_ws f [' '] _ (by intro c hc; obtain rfl := List.mem_singleton.mp hc; decide)]
      rw [H k v (List.mem_cons_self (k, v) (m2 :: tail2)) (lvl + 1) f
        (',' :: '\n' :: (indentChars (lvl + 1) ++ (stringifyPrettyMembers lvl (m2 :: tail2) ++
          '\n' :: (indentChars lvl ++ '\x7d' :: rest)))) (by omega)
        (safeFollower_cons ',' _ (by decide) (by decide) (by decide) (by decide))]
      simp only [Option.bind]
      rw [skipWs_not ',' _ (by decide)]
      show (parseMembers f ('\n' :: (indentChars (lvl + 1) ++
          (stringifyPrettyMembers lvl (m2 :: tail2) ++
            '\n' :: (indentChars lvl ++ '\x7d' :: rest))))).map
          (fun pm => ((k, v) :: pm.1, pm.2)) = some ((k, v) :: m2 :: tail2, rest)
      rw [ih (fun k2 v2 h2 => H k2 v2 (List.mem_cons_of_mem (k, v) h2)) f rest
        (List.cons_ne_nil m2 tail2) (by omega)]
      rfl

theorem stringifyPrettyItems_head (lvl : ℕ) (x : Json) (xs : List Json) :
    ∃ c t, stringifyPrettyItems lvl (x :: xs) = c :: t ∧ isWsChar c = false ∧
      c ≠ ']' ∧ c ≠ '\x7d' := by
  obtain ⟨c, t, hct, h1, h2, h3⟩ := stringifyPretty_head x (lvl + 1)
  cases xs with
  | nil =>
    refine ⟨c, t, ?_, h1, h2, h3⟩
    rw [stringifyPrettyItems]
    exact hct
  | cons w ws =>
    refine ⟨c, t ++ (',' :: '\n' ::
      (indentChars (lvl + 1) ++ stringifyPrettyItems lvl (w :: ws))), ?_, h1, h2, h3⟩
    rw [stringifyPrettyItems, hct, List.cons_append]

theorem stringifyPrettyMembers_head (lvl : ℕ) (m : String × Json)
    (ms : List (String × Json)) :
    ∃ t, stringifyPrettyMembers lvl (m :: ms) = '"' :: t := by
  obtain ⟨k, v⟩ := m
  cases ms with
  | nil =>
    refine ⟨(k.data.flatMap escapeChar ++ ['"']) ++
      ':' :: ' ' :: stringifyPretty (lvl + 1) v, ?_⟩
    rw [stringifyPrettyMembers]
    rfl
  | cons m2 ms2 =>
    refine ⟨((k.data.flatMap escapeChar ++ ['"']) ++
      (':' :: ' ' :: stringifyPretty (lvl + 1) v)) ++ (',' :: '\n' ::
        (indentChars (lvl + 1) ++ stringifyPrettyMembers lvl (m2 :: ms2))), ?_⟩
    rw [stringifyPrettyMembers]
    rfl

theorem parseVal_print_aux (n : ℕ) : ∀ (j : Json), sizeOf j ≤ n →
    ∀ (lvl f : ℕ) (rest : List Char), serializable j = true → fuelV j ≤ f →
    SafeFollower rest →
    parseVal f (stringifyPretty lvl j ++ rest) = some (j, rest) := by
  induction n with
  | zero =>
    intro j hj
    exfalso
    cases j <;> simp at hj <;> omega
  | succ n ihn =>
    intro j hj lvl f rest hser hf hrest
    match j with
    | .null =>
      rw [fuelV] at hf
      obtain ⟨f, rfl⟩ : ∃ f2, f = f2 + 1 := ⟨f - 1, by omega⟩
      rw [show stringifyPretty lvl Json.null = "null".data from by rw [stringifyPretty]]
      exact parseVal_null f rest
    | .bool b =>
      rw [fuelV] at hf
      obtain ⟨f, rfl⟩ : ∃ f2, f = f2 + 1 := ⟨f - 1, by omega⟩
      cases b
      · rw [show stringifyPretty lvl (Json.bool false) = "false".data from by
          rw [stringifyPretty]
          rfl]
        exact parseVal_false f rest
      · rw [show stringifyPretty lvl (Json.bool true) = "true".data from by
          rw [stringifyPretty]
          rfl]
        exact parseVal_true f rest
    | .num q =>
      rw [fuelV] at hf
      rw [serializable] at hser
      obtain ⟨f, rfl⟩ : ∃ f2, f = f2 + 1 := ⟨f - 1, by omega⟩
      rw [show stringifyPretty lvl (Json.num q) = numChars q from by rw [stringifyPretty]]
      exact parseVal_num f q (of_decide_eq_true hser) rest hrest
    | .str s =>
      rw [fuelV] at hf
      obtain ⟨f, rfl⟩ : ∃ f2, f = f2 + 1 := ⟨f - 1, by omega⟩
      rw [show stringifyPretty lvl (Json.str s) = quoteString s from by rw [stringifyPretty]]
      exact parseVal_str f s rest
    | .arr [] =>
      rw [fuelV] at hf
      obtain ⟨f, rfl⟩ : ∃ f2, f = f2 + 1 := ⟨f - 1, by omega⟩
      rw [show stringifyPretty lvl (Json.arr []) = ['[', ']'] from by rw [stringifyPretty]]
      exact parseVal_arr_nil f rest
    | .obj [] =>
      rw [fuelV] at hf
      obtain ⟨f, rfl⟩ : ∃ f2, f = f2 + 1 := ⟨f - 1, by omega⟩
      rw [show stringifyPretty lvl (Json.obj []) = ['\x7b', '\x7d'] from by
        rw [stringifyPretty]]
      exact parseVal_obj_nil f rest
    | .arr (x :: xs) =>
      rw [fuelV] at hf
      rw [serializable] at hser
      simp only [Json.arr.sizeOf_spec] at hj
      obtain ⟨f, rfl⟩ : ∃ f2, f = f2 + 1 := ⟨f - 1, by omega⟩
      have H2 : ∀ y ∈ x :: xs, ∀ (lvl2 f2 : ℕ) (rest2 : List Char), fuelV y ≤ f2 →
          SafeFollower rest2 →
          parseVal f2 (stringifyPretty lvl2 y ++ rest2) = some (y, rest2) := by
        intro y hy lvl2 f2 rest2 hf2 hr2
        have h1 := List.sizeOf_lt_of_mem hy
        exact ihn y (by omega) lvl2 f2 rest2 (serializableItems_mem _ hser y hy) hf2 hr2
      rw [show stringifyPretty lvl (Json.arr (x :: xs)) =
          '[' :: '\n' :: (indentChars (lvl + 1) ++ stringifyPrettyItems lvl (x :: xs) ++
            '\n' :: (indentChars lvl ++ [']'])) from by rw [stringifyPretty]]
      simp only [List.cons_append, List.append_assoc, List.nil_append]
      rw [parseVal_arr_step]
      obtain ⟨c, t, hct, hcw, hcrb, hcrc⟩ := stringifyPrettyItems_head lvl x xs
      have hskX : skipWs ('\n' :: (indentChars (lvl + 1) ++
          (stringifyPrettyItems lvl (x :: xs) ++
            '\n' :: (indentChars lvl ++ ']' :: rest)))) =
          c :: (t ++ '\n' :: (indentChars lvl ++ ']' :: rest)) := by
        rw [(List.cons_append '\n' (indentChars (lvl + 1)) _).symm,
          skipWs_all _ _ (nl_indent_ws (lvl + 1)), hct, List.cons_append,
          skipWs_not c _ hcw]
      rw [hskX]
      split
      · next rest2 heq =>
        injection heq with h1 h2
        simp_all
      · rw [parseItems_print lvl (x :: xs) H2 f rest (List.cons_ne_nil x xs) (by omega)]
        rfl
    | .obj (m :: ms) =>
      rw [fuelV] at hf
      rw [serializable] at hser
      simp only [Json.obj.sizeOf_spec] at hj
      obtain ⟨f, rfl⟩ : ∃ f2, f = f2 + 1 := ⟨f - 1, by omega⟩
      have H2 : ∀ (k2 : String) (v2 : Json), (k2, v2) ∈ m :: ms →
          ∀ (lvl2 f2 : ℕ) (rest2 : List Char), fuelV v2 ≤ f2 → SafeFollower rest2 →
          parseVal f2 (stringifyPretty lvl2 v2 ++ rest2) = some (v2, rest2) := by
        intro k2 v2 hy lvl2 f2 rest2 hf2 hr2
        have h1 := List.sizeOf_lt_of_mem hy
        simp only [Prod.mk.sizeOf_spec] at h1
        exact ihn v2 (by omega) lvl2 f2 rest2
          (serializableMembers_mem _ hser (k2, v2) hy) hf2 hr2
      rw [show stringifyPretty lvl (Json.obj (m :: ms)) =
          '\x7b' :: '\n' :: (indentChars (lvl + 1) ++ stringifyPrettyMembers lvl (m :: ms) ++
            '\n' :: (indentChars lvl ++ ['\x7d'])) from by rw [stringifyPretty]]
      simp only [List.cons_append, List.append_assoc, List.nil_append]
      rw [parseVal_obj_step]
      obtain ⟨t, hct⟩ := stringifyPrettyMembers_head lvl m ms
      have hskX : skipWs ('\n' :: (indentChars (lvl + 1) ++
          (stringifyPrettyMembers lvl (m :: ms) ++
            '\n' :: (indentChars lvl ++ '\x7d' :: rest)))) =
          '"' :: (t ++ '\n' :: (indentChars lvl ++ '\x7d' :: rest)) := by
        rw [(List.cons_append '\n' (indentChars (lvl + 1)) _).symm,
          skipWs_all _ _ (nl_indent_ws (lvl + 1)), hct, List.cons_append,
          skipWs_not '"' _ (by decide)]
      rw [hskX]
      split
      · next rest2 heq =>
        injection heq with h1 h2
        simp_all
      · rw [parseMembers_print lvl (m :: ms) H2 f rest (List.cons_ne_nil m ms) (by omega)]
        rfl

theorem fuelItems_le (lvl : ℕ) (xs : List Json)
    (H : ∀ x ∈ xs, ∀ lvl2 : ℕ, fuelV x ≤ (stringifyPretty lvl2 x).length + 1) :
    fuelItemsF xs ≤ (stringifyPrettyItems lvl xs).length + 3 := by
  induction xs with
  | nil =>
    rw [fuelItemsF, stringifyPrettyItems]
    simp
  | cons x tail ih =>
    rw [fuelItemsF]
    cases tail with
    | nil =>
      rw [stringifyPrettyItems, fuelItemsF]
      have h1 := H x (List.mem_cons_self x []) (lvl + 1)
      omega
    | cons w t2 =>
      rw [stringifyPrettyItems]
      have h1 := H x (List.mem_cons_self x (w :: t2)) (lvl + 1)
      have h2 := ih (fun y hy lvl2 => H y (List.mem_cons_of_mem x hy) lvl2)
      simp only [List.length_append, List.length_cons]
      omega

theorem fuelMembers_le (lvl : ℕ) (ms : List (String × Json))
    (H : ∀ m ∈ ms, ∀ lvl2 : ℕ, fuelV m.2 ≤ (stringifyPretty (lvl2) m.2).length + 1) :
    fuelMembersF ms ≤ (stringifyPrettyMembers lvl ms).length + 3 := by
  induction ms with
  | nil =>
    rw [fuelMembersF, stringifyPrettyMembers]
    simp
  | cons m tail ih =>
    obtain ⟨k, v⟩ := m
    rw [fuelMembersF]
    cases tail with
    | nil =>
      rw [stringifyPrettyMembers, fuelMembersF]
      have h1 : fuelV v ≤ (stringifyPretty (lvl + 1) v).length + 1 :=
        H (k, v) (List.mem_cons_self (k, v) []) (lvl + 1)
      simp only [List.length_append, List.length_cons]
      omega
    | cons m2 t2 =>
      rw [stringifyPrettyMembers]
      have h1 : fuelV v ≤ (stringifyPretty (lvl + 1) v).length + 1 :=
        H (k, v) (List.mem_cons_self (k, v) (m2 :: t2)) (lvl + 1)
      have h2 := ih (fun y hy lvl2 => H y (List.mem_cons_of_mem (k, v) hy) lvl2)
      simp only [List.length_append, List.length_cons]
      omega

theorem fuelV_le_length (n : ℕ) : ∀ j : Json, sizeOf j ≤ n → ∀ lvl : ℕ,
    fuelV j ≤ (stringifyPretty lvl j).length + 1 := by
  induction n with
  | zero =>
    intro j hj
    exfalso
    cases j <;> simp at hj <;> omega
  | succ n ihn =>
    intro j hj lvl
    match j with
    | .null =>
      rw [fuelV]
      omega
    | .bool b =>
      rw [fuelV]
      omega
    | .num q =>
      rw [fuelV]
      omega
    | .str s =>
      rw [fuelV]
      omega
    | .arr [] =>
      rw [fuelV, fuelItemsF,
        show stringifyPretty lvl (Json.arr []) = ['[', ']'] from by rw [stringifyPretty]]
      simp
    | .obj [] =>
      rw [fuelV, fuelMembersF,
        show stringifyPretty lvl (Json.obj []) = ['\x7b', '\x7d'] from by
          rw [stringifyPretty]]
      simp
    | .arr (x :: xs) =>
      simp only [Json.arr.sizeOf_spec] at hj
      have HH : ∀ y ∈ x :: xs, ∀ lvl2 : ℕ,
          fuelV y ≤ (stringifyPretty lvl2 y).length + 1 := by
        intro y hy lvl2
        have h1 := List.sizeOf_lt_of_mem hy
        exact ihn y (by omega) lvl2
      have hb := fuelItems_le lvl (x :: xs) HH
      rw [fuelV,
        show stringifyPretty lvl (Json.arr (x :: xs)) =
          '[' :: '\n' :: (indentChars (lvl + 1) ++ stringifyPrettyItems lvl (x :: xs) ++
            '\n' :: (indentChars lvl ++ [']'])) from by rw [stringifyPretty]]
      simp only [List.length_append, List.length_cons]
      omega
    | .obj (m :: ms) =>
      simp only [Json.obj.sizeOf_spec] at hj
      have HH : ∀ y ∈ m :: ms, ∀ lvl2 : ℕ,
          fuelV y.2 ≤ (stringifyPretty lvl2 y.2).length + 1 := by
        intro y hy lvl2
        obtain ⟨k2, v2⟩ := y
        have h1 := List.sizeOf_lt_of_mem hy
        simp only [Prod.mk.sizeOf_spec] at h1
        exact ihn v2 (by omega) lvl2
      have hb := fuelMembers_le lvl (m :: ms) HH
      rw [fuelV,
        show stringifyPretty lvl (Json.obj (m :: ms)) =
          '\x7b' :: '\n' :: (indentChars (lvl + 1) ++ stringifyPrettyMembers lvl (m :: ms) ++
            '\n' :: (indentChars lvl ++ ['\x7d'])) from by rw [stringifyPretty]]
      simp only [List.length_append, List.length_cons]
      omega

theorem jsonParse_print (j : Json) (h : serializable j = true) :
    jsonParse ⟨stringifyPretty 0 j⟩ = some j := by
  have hfuel : fuelV j ≤ (stringifyPretty 0 j).length + 1 :=
    fuelV_le_length (sizeOf j) j le_rfl 0
  have hsafe : SafeFollower [] := by
    unfold SafeFollower
    trivial
  have hp : parseVal ((stringifyPretty 0 j).length + 1)
      (stringifyPretty 0 j ++ []) = some (j, []) :=
    parseVal_print_aux (sizeOf j) j le_rfl 0 _ [] h hfuel hsafe
  rw [List.append_nil] at hp
  show (match parseVal ((stringifyPretty 0 j).length + 1) (stringifyPretty 0 j) with
    | some (jj, rest) => if skipWs rest = [] then some jj else none
    | none => none) = some j
  rw [hp]
  rfl

/-- **C6**: raw-JSON round-trip.  For every present payload whose numbers
have finite decimal expansions (true of every payload a JavaScript
runtime can produce, since IEEE doubles are finite decimals), parsing the
dialog's raw-JSON text — `JSON.stringify(parsedData, null, 2)` — yields a
value deep-equal to the original payload; for an absent payload the
raw-JSON text is the empty string. -/
theorem rawJson_roundtrip (ms : List (String × Json))
    (h : serializable (Json.obj ms) = true) :
    jsonParse (getJsonText (some ms)) = some (Json.obj ms) ∧
      getJsonText none = "" := by
  constructor
  · rw [show getJsonText (some ms) = ⟨stringifyPretty 0 (Json.obj ms)⟩ from rfl]
    exact jsonParse_print (Json.obj ms) h
  · rfl

/-- Witness for C6 at a concrete payload with a string, an array, a
boolean, and a null. -/
theorem rawJson_roundtrip_witness :
    jsonParse (getJsonText (some [("parse_status", Json.str "full"),
      ("flags", Json.arr [Json.bool true, Json.null])])) =
      some (Json.obj [("parse_status", Json.str "full"),
      ("flags", Json.arr [Json.bool true, Json.null])]) ∧
      getJsonText none = "" :=
  rawJson_roundtrip [("parse_status", Json.str "full"),
      ("flags", Json.arr [Json.bool true, Json.null])]
    (by simp [serializable, serializableMembers, serializableItems])
